import Mathlib

/-!
# Verification of the Petrophyter LAS merge engine

Shallow embedding of `modules/las_handler.py`: normalization of curve tables,
master-depth-grid construction, the two projection policies (linear with gap
limit, nearest neighbor with distance limit), the composite QC score, source
ranking, gap filling, and the full merge pipeline.

Modelling conventions:
* floating-point values are modelled as rationals (`ℚ`); a missing value
  (`NaN`) is `Option.none`;
* a pandas `DataFrame` is a header (column names) plus row-major data;
* Python's stable sorts (`list.sort` with `reverse=True`, a stable sort by a
  total preorder) are modelled by Mathlib's stable `List.insertionSort`: for a
  total preorder the output of any stable sort is uniquely determined;
* iteration over a Python `set` has no guaranteed order; it is modelled by an
  explicit `setOrder` parameter that reorders the insertion-ordered list of
  distinct elements.  Every concrete hash seed induces one such reordering.
-/

-- Batteries marks the core rational arithmetic irreducible; re-allow
-- definitional unfolding so that concrete evaluations of the embedding go
-- through decide and rfl (the kernel unfolds these definitions regardless).
set_option allowUnsafeReducibility true in
attribute [semireducible] Rat.add Rat.mul Rat.sub Rat.inv Rat.ofScientific

instance [DecidableEq ε] [DecidableEq α] : DecidableEq (Except ε α) := fun a b =>
  match a, b with
  | .ok x, .ok y => if h : x = y then isTrue (by rw [h]) else isFalse (by simp [h])
  | .error x, .error y => if h : x = y then isTrue (by rw [h]) else isFalse (by simp [h])
  | .ok _, .error _ => isFalse (by simp)
  | .error _, .ok _ => isFalse (by simp)

namespace Petrophyter

/-- Tokens that mark a curve as discrete (`DISCRETE_CURVE_TOKENS`). -/
def DISCRETE_CURVE_TOKENS : List String :=
  ["LITH", "FACIES", "FLAG", "ZONE", "CODE", "TYPE", "CLASS"]

/-- Expected curve ranges for QC scoring (`CURVE_RANGES`). -/
def CURVE_RANGES : List (String × ℚ × ℚ) :=
  [("GR", 0, 300), ("RHOB", 1, 3), ("NPHI", -0.15, 0.60), ("DT", 40, 250),
   ("RT", 0.1, 10000), ("CALI", 4, 20), ("SP", -200, 200), ("PEF", 0, 10)]

/-- Common null sentinels replaced during normalization (`COMMON_NULL_VALUES`). -/
def COMMON_NULL_VALUES : List ℚ :=
  [-999.25, -999, -9999, -999.0, -9999.0, -999999, 999.25]

/-- Python `str.upper()` on the ASCII names this engine sees (defined by
character mapping so that it evaluates definitionally). -/
def strUpper (s : String) : String := ⟨s.data.map Char.toUpper⟩

/-- `_is_discrete_curve`: token containment in the upper-cased curve name. -/
def is_discrete_curve (curve_name : String) : Bool :=
  DISCRETE_CURVE_TOKENS.any fun tok => decide (tok.toList <:+: (strUpper curve_name).toList)

/-- A pandas DataFrame: column names plus row-major numeric data;
`none` models `NaN`. -/
structure DataFrame where
  header : List String
  rows : List (List (Option ℚ))
deriving DecidableEq

/-- Column `name` of a data frame (`df[name]`), when the name is a column. -/
def getCol (df : DataFrame) (name : String) : Option (List (Option ℚ)) :=
  if name ∈ df.header then
    some (df.rows.map fun r => r.getD (df.header.indexOf name) none)
  else none

/-- Column `name`, defaulting to the empty series (callers guard membership). -/
def getColD (df : DataFrame) (name : String) : List (Option ℚ) :=
  (getCol df name).getD []

/-- Depth-column aliases probed by the normalizer, in source order. -/
def DEPTH_ALIASES : List String := ["DEPT", "DEPTH", "MD", "TVD", "TDEP"]

/-- Step 1 of `normalize_las_dataframe`: rename the first alias that is a
column and is not already literally named DEPTH. -/
def renameDepth (header : List String) : List String :=
  match DEPTH_ALIASES.find? (fun c => decide (c ∈ header) && decide (c ≠ "DEPTH")) with
  | some c => header.map fun h => if h = c then "DEPTH" else h
  | none => header

/-- The per-value sentinel mask of `normalize_las_dataframe` step 2: the source
iterates the sentinel list, turning any value within strict distance 0.01 of a
sentinel into `NaN`; a value already `NaN` stays `NaN`. -/
def maskValue (nulls : List ℚ) (v : Option ℚ) : Option ℚ :=
  nulls.foldl
    (fun acc nl =>
      match acc with
      | none => none
      | some x => if |x - nl| < 1 / 100 then none else some x) v

/-- Step 2 of `normalize_las_dataframe`: sentinel masking of every non-depth
column (all columns are numeric in this model). -/
def replace_nulls (header : List String) (nulls : List ℚ)
    (rows : List (List (Option ℚ))) : List (List (Option ℚ)) :=
  rows.map fun r =>
    (header.zip r).map fun hv => if hv.1 = "DEPTH" then hv.2 else maskValue nulls hv.2

/-- Metric spellings recognized by the depth-unit conversion. -/
def METER_UNITS : List String := ["M", "METER", "METERS"]

/-- Step 3 of `normalize_las_dataframe`: convert depth to feet when the
declared unit is metric (factor 3.28084). -/
def convertDepth (di : ℕ) (depth_unit : String) (rows : List (List (Option ℚ))) :
    List (List (Option ℚ)) :=
  if strUpper depth_unit ∈ METER_UNITS then
    rows.map fun r => r.mapIdx fun j v => if j = di then v.map (· * 3.28084) else v
  else rows

/-- Row order used by `sort_values('DEPTH')`: ascending by depth, `NaN` last,
stable. -/
def depthLeB : Option ℚ → Option ℚ → Bool
  | some a, some b => decide (a ≤ b)
  | some _, none => true
  | none, some _ => false
  | none, none => true

/-- Insertion-ordered deduplication; models the set of values in first-seen
order (and `groupby` keys of a sorted column, which appear in sorted order). -/
def insertionDedup [DecidableEq α] (l : List α) : List α :=
  l.foldl (fun acc x => if x ∈ acc then acc else acc ++ [x]) []

/-- `np.median` / `pandas.Series.median` on a list of present values: midpoint
of the sorted list (mean of the two middles for even length); 0 on empty
(callers guard; numpy would give `NaN`). -/
def npMedian (l : List ℚ) : ℚ :=
  let s := l.insertionSort (· ≤ ·)
  let n := s.length
  if n = 0 then 0
  else if n % 2 = 1 then s.getD (n / 2) 0
  else (s.getD (n / 2 - 1) 0 + s.getD (n / 2) 0) / 2

/-- One output row of `groupby('DEPTH').median().reset_index()`: the group key
first, then the per-column median over the group (skipping missing values,
`NaN` for an all-missing group). -/
def groupMedianRow (header : List String) (di : ℕ) (grp : List (List (Option ℚ)))
    (d : ℚ) : List (Option ℚ) :=
  some d :: ((List.range header.length).filter fun j => decide (j ≠ di)).map fun j =>
    let vs := grp.filterMap fun r => r.getD j none
    if vs.isEmpty then none else some (npMedian vs)

/-- Step 5 of `normalize_las_dataframe` when duplicate depths exist:
`groupby('DEPTH').median().reset_index()`.  Rows with missing depth are dropped
by `groupby`; the depth column moves to the front of the header. -/
def dedupByDepth (header : List String) (di : ℕ) (rows : List (List (Option ℚ))) :
    List String × List (List (Option ℚ)) :=
  let ds := insertionDedup (rows.filterMap fun r => r.getD di none)
  ("DEPTH" :: ((List.range header.length).filter fun j => decide (j ≠ di)).map
      (fun j => header.getD j ""),
   ds.map fun d => groupMedianRow header di (rows.filter fun r => decide (r.getD di none = some d)) d)

/-- `LASHandler.normalize_las_dataframe`: depth-column detection/rename,
sentinel masking, unit conversion, stable sort by depth, duplicate-depth
collapse by median.  Fails when no depth column is found. -/
def normalize_las_dataframe (df : DataFrame) (null_values : List ℚ)
    (depth_unit : String) : Except String DataFrame :=
  let header := renameDepth df.header
  if "DEPTH" ∈ header then
    let di := header.indexOf "DEPTH"
    let rows1 := replace_nulls header null_values df.rows
    let rows2 := convertDepth di depth_unit rows1
    let rows3 := rows2.insertionSort fun r s => depthLeB (r.getD di none) (s.getD di none) = true
    if ((rows3.map fun r => r.getD di none : List (Option ℚ))).Nodup then .ok ⟨header, rows3⟩
    else
      let hr := dedupByDepth header di rows3
      .ok ⟨hr.1, hr.2⟩
  else .error "No depth column found in DataFrame"

/-- Minimum of a list with a default (Python `min` over a nonempty list). -/
def listMinD (l : List ℚ) (dflt : ℚ) : ℚ :=
  match l with
  | [] => dflt
  | a :: r => r.foldl min a

/-- Maximum of a list with a default (Python `max` over a nonempty list). -/
def listMaxD (l : List ℚ) (dflt : ℚ) : ℚ :=
  match l with
  | [] => dflt
  | a :: r => r.foldl max a

/-- Minimum of a list, `none` on empty. -/
def listMin? (l : List ℚ) : Option ℚ :=
  match l with
  | [] => none
  | a :: r => some (r.foldl min a)

/-- Maximum of a list, `none` on empty. -/
def listMax? (l : List ℚ) : Option ℚ :=
  match l with
  | [] => none
  | a :: r => some (r.foldl max a)

/-- The present values of a data frame's depth column (`df['DEPTH']` with
missing entries skipped, as pandas `min`/`max` skip `NaN`). -/
def depthVals (df : DataFrame) : List ℚ := (getColD df "DEPTH").filterMap id

/-- `np.arange(start, stop, step)` over rationals:
`start, start + step, ...` of length `ceil((stop - start) / step)` (0 when the
span is nonpositive). -/
def arangeQ (start stop step : ℚ) : List ℚ :=
  (List.range (⌈(stop - start) / step⌉).toNat).map fun k : ℕ => start + (k : ℚ) * step

/-- One step of Python's builtin `min` over floats that may be `NaN`
(modelled as `none`): `min` keeps the current value unless `x < cur`, and
every comparison against `NaN` is false — so a `NaN` current value persists
and a `NaN` candidate never wins. -/
def pyMin2 (cur x : Option ℚ) : Option ℚ :=
  match cur, x with
  | some c, some v => if v < c then some v else some c
  | some c, none => some c
  | none, _ => none

/-- One step of Python's builtin `max` over floats that may be `NaN`
(`none`): keeps the current value unless `x > cur`, with every comparison
against `NaN` false. -/
def pyMax2 (cur x : Option ℚ) : Option ℚ :=
  match cur, x with
  | some c, some v => if c < v then some v else some c
  | some c, none => some c
  | none, _ => none

/-- Python's builtin `min` over a list of floats that may be `NaN`: the fold
starts from the first element, so a `NaN` result occurs exactly when the
first element is `NaN`. -/
def pyMinList : List (Option ℚ) → Option ℚ
  | [] => none
  | a :: r => r.foldl pyMin2 a

/-- Python's builtin `max` over a list of floats that may be `NaN`. -/
def pyMaxList : List (Option ℚ) → Option ℚ
  | [] => none
  | a :: r => r.foldl pyMax2 a

/-- `LASHandler.build_master_depth` (lines 153-186).  For every table with a
depth column and at least one row the source appends `df['DEPTH'].min()` and
`df['DEPTH'].max()` to `all_mins` / `all_maxs`; pandas skips missing entries
and yields `NaN` when the whole column is missing, modelled as `none`.  The
structured `ValueError` is raised exactly when no table has a depth column
and a row.  Otherwise Python's builtin `min`/`max` fold over the lists
(`pyMinList` / `pyMaxList`), on which a `NaN` survives exactly when it is the
first element; `np.floor` / `np.ceil` pass `NaN` through, and `np.arange`
with a `NaN` bound raises `ValueError` — modelled as the distinct
`cannot compute length` error (the text stands for numpy's `ValueError`; no
theorem relies on that text). -/
def build_master_depth (files_dfs : List DataFrame) (step_ft : ℚ) :
    Except String (List ℚ) :=
  let contrib := files_dfs.filter fun df => decide ("DEPTH" ∈ df.header) && !df.rows.isEmpty
  let all_mins := contrib.map fun df => listMin? (depthVals df)
  let all_maxs := contrib.map fun df => listMax? (depthVals df)
  if all_mins.isEmpty then .error "No valid depth data found in files"
  else
    match pyMinList all_mins, pyMaxList all_maxs with
    | some gmin, some gmax =>
      let min_depth := (⌊gmin / step_ft⌋ : ℚ) * step_ft
      let max_depth := (⌈gmax / step_ft⌉ : ℚ) * step_ft
      .ok (arangeQ min_depth (max_depth + step_ft) step_ft)
    | _, _ => .error "cannot compute length"

/-- Consecutive differences of the valid points (`series.diff().dropna()` of a
series without missing entries). -/
def consecDiffs (l : List ℚ) : List ℚ := (l.zip l.tail).map fun p => p.2 - p.1

/-- Consecutive differences on a series with missing entries: a difference
exists only when both neighbors are present (`diff()` then `dropna()`). -/
def diffDropna (l : List (Option ℚ)) : List ℚ :=
  (l.zip l.tail).filterMap fun p =>
    match p.1, p.2 with
    | some a, some b => some (b - a)
    | _, _ => none

/-- `np.percentile(l, q)` with the default linear interpolation between order
statistics; 0 on the empty list (callers guard). -/
def npPercentile (l : List ℚ) (q : ℚ) : ℚ :=
  let s := l.insertionSort (· ≤ ·)
  let n := s.length
  if n = 0 then 0
  else
    let rank := q / 100 * ((n : ℚ) - 1)
    let lo := (⌊rank⌋).toNat
    let frac := rank - (⌊rank⌋ : ℚ)
    s.getD lo 0 + frac * (s.getD (min (lo + 1) (n - 1)) 0 - s.getD lo 0)

/-- `LASHandler.curve_qc_score`: composite 0-100 quality score
(coverage 40, flatline 20, spike 20, range 20), clamped to [0, 100];
0 when there is no valid point. -/
def curve_qc_score (series : List (Option ℚ)) (curve_type : Option String) : ℚ :=
  if series.length = 0 then 0
  else
    let valid := series.filterMap id
    if valid.length = 0 then 0
    else
      let coverage := (valid.length : ℚ) / (series.length : ℚ)
      let coverage_score := coverage * 40
      let flatline_score :=
        if 1 < valid.length then
          let diffs := consecDiffs valid
          if 0 < diffs.length then
            let data_range := listMaxD valid 0 - listMinD valid 0
            let atol := max (1 / 1000000) (data_range * (1 / 10000))
            let flatFrac := ((diffs.countP fun d => decide (|d| ≤ atol)) : ℚ) / (diffs.length : ℚ)
            (1 - flatFrac) * 20
          else 20
        else 20
      let spike_score :=
        if 10 < valid.length then
          let adiffs := (consecDiffs valid).map abs
          if 0 < adiffs.length then
            let p99 := npPercentile adiffs 99
            let spikeFrac := ((adiffs.countP fun d => decide (p99 * 3 < d)) : ℚ) / (adiffs.length : ℚ)
            (1 - spikeFrac) * 20
          else 20
        else 20
      let range_score :=
        match curve_type with
        | some t =>
          if t ≠ "" then
            match CURVE_RANGES.lookup (strUpper t) with
            | some bounds =>
              ((valid.countP fun v => decide (bounds.1 ≤ v ∧ v ≤ bounds.2)) : ℚ) /
                (valid.length : ℚ) * 20
            | none => 20
          else 20
        | none => 20
      min 100 (max 0 (coverage_score + flatline_score + spike_score + range_score))

/-- `np.searchsorted(xs, v)` with the default left side on a sorted list:
number of entries strictly below `v`. -/
def searchsortedLeft (xs : List ℚ) (v : ℚ) : ℕ :=
  (xs.takeWhile fun x => decide (x < v)).length

/-- Sample order for `np.argsort` by depth. -/
def pairFstLe (a b : ℚ × ℚ) : Prop := a.1 ≤ b.1

instance (a b : ℚ × ℚ) : Decidable (pairFstLe a b) :=
  inferInstanceAs (Decidable (a.1 ≤ b.1))

/-- The body of `_linear_interp_with_gap_limit` for one grid point: bracket
search via `searchsorted`, edge extension within the gap limit outside the
sample span, linear interpolation inside a bracket no wider than the gap
limit.  `none` on an empty sample list (callers guard against empty data). -/
def interpAt (samples : List (ℚ × ℚ)) (gap_limit : ℚ) (xi : ℚ) : Option ℚ :=
  if hne : samples = [] then none
  else
    let k := searchsortedLeft (samples.map Prod.fst) xi
    if k = 0 then
      if |xi - (samples.head hne).1| ≤ gap_limit then some (samples.head hne).2 else none
    else if samples.length ≤ k then
      let sl := samples.getLast hne
      if |xi - sl.1| ≤ gap_limit then some sl.2 else none
    else
      let a := samples.getD (k - 1) (0, 0)
      let b := samples.getD k (0, 0)
      if b.1 - a.1 ≤ gap_limit then
        let t := (xi - a.1) / (b.1 - a.1)
        some (a.2 * (1 - t) + b.2 * t)
      else none

/-- `LASHandler._linear_interp_with_gap_limit`: sort the samples by depth,
then evaluate each grid point.  (The source's `np.argsort` ordering of
distinct depths coincides with the stable sort used here.) -/
def linear_interp_with_gap_limit (x_new : List ℚ) (xy : List (ℚ × ℚ))
    (gap_limit : ℚ) : List (Option ℚ) :=
  let s := xy.insertionSort pairFstLe
  x_new.map (interpAt s gap_limit)

/-- `np.argmin` accumulator: first index of the minimum (strict comparison
keeps the earliest). -/
def argminAux : List ℚ → ℕ → ℕ → ℚ → ℕ
  | [], _, bi, _ => bi
  | v :: vs, i, bi, bv => if v < bv then argminAux vs (i + 1) i v else argminAux vs (i + 1) bi bv

/-- `np.argmin`: first index of the minimum value (0 on the empty list, where
numpy would raise; callers guard). -/
def argminIdx : List ℚ → ℕ
  | [] => 0
  | v :: vs => argminAux vs 1 0 v

/-- The body of `_nearest_neighbor_interp` for one grid point: value of the
first closest sample when its distance is within `max_dist`, else missing. -/
def nnAt (xy : List (ℚ × ℚ)) (max_dist : ℚ) (xi : ℚ) : Option ℚ :=
  if xy.isEmpty then none
  else
    let ds := xy.map fun p => |p.1 - xi|
    let j := argminIdx ds
    if ds.getD j 0 ≤ max_dist then some (xy.getD j (0, 0)).2 else none

/-- `LASHandler._nearest_neighbor_interp`. -/
def nearest_neighbor_interp (x_new : List ℚ) (xy : List (ℚ × ℚ)) (max_dist : ℚ) :
    List (Option ℚ) :=
  x_new.map (nnAt xy max_dist)

/-- The `dropna` pairs of `project_to_master_grid`: rows where both the depth
and the curve value are present. -/
def validPairs (df : DataFrame) (c : String) : List (ℚ × ℚ) :=
  let di := df.header.indexOf "DEPTH"
  let ci := df.header.indexOf c
  df.rows.filterMap fun r =>
    match r.getD di none, r.getD ci none with
    | some d, some v => some (d, v)
    | _, _ => none

/-- Projection of one curve in `project_to_master_grid`: all-missing when no
valid pair exists; nearest neighbor with distance limit `max(1.0, 2 * step)`
for a discrete curve name; linear interpolation with the gap limit
otherwise. -/
def projectCol (df : DataFrame) (master : List ℚ) (gap_limit step : ℚ)
    (c : String) : List (Option ℚ) :=
  let pairs := validPairs df c
  if pairs.isEmpty then master.map fun _ => none
  else if is_discrete_curve c then
    nearest_neighbor_interp master pairs (max 1 (2 * step))
  else
    linear_interp_with_gap_limit master pairs gap_limit

/-- `LASHandler.project_to_master_grid`: a grid-aligned frame with the depth
column first and every non-depth curve projected; only the depth column when
the input has no depth column. -/
def project_to_master_grid (df : DataFrame) (master : List ℚ)
    (gap_limit step : ℚ) : DataFrame :=
  if "DEPTH" ∈ df.header then
    let curves := df.header.filter fun c => decide (c ≠ "DEPTH")
    ⟨"DEPTH" :: curves,
     (List.range master.length).map fun i =>
       some (master.getD i 0) ::
         curves.map fun c => (projectCol df master gap_limit step c).getD i none⟩
  else
    ⟨["DEPTH"], (List.range master.length).map fun i => [some (master.getD i 0)]⟩

/-- Ranking key of `select_best_source`: Python compares the tuples
`(coverage, qc_score)` lexicographically. -/
def pairLexLe (p q : ℚ × ℚ) : Prop := p.1 < q.1 ∨ (p.1 = q.1 ∧ p.2 ≤ q.2)

instance (p q : ℚ × ℚ) : Decidable (pairLexLe p q) :=
  inferInstanceAs (Decidable (p.1 < q.1 ∨ (p.1 = q.1 ∧ p.2 ≤ q.2)))

/-- The coverage/QC key of a ranking entry. -/
def rankKey (x : String × ℚ × ℚ) : ℚ × ℚ := (x.2.1, x.2.2)

/-- Order of the descending stable sort
`rankings.sort(key=..., reverse=True)`: `a` may precede `b` when the key of
`b` is lexicographically at most the key of `a`. -/
def rankGe (a b : String × ℚ × ℚ) : Prop := pairLexLe (rankKey b) (rankKey a)

instance (a b : String × ℚ × ℚ) : Decidable (rankGe a b) :=
  inferInstanceAs (Decidable (pairLexLe (rankKey b) (rankKey a)))

/-- The pre-sort candidate list of `select_best_source`: for each projected
source carrying the curve, `(identifier, coverage, qc_score)` in input order;
a missing QC entry defaults to 50. -/
def rankCandidates (curve_name : String) (projected_dfs : List (String × DataFrame))
    (qc_scores : List (String × List (String × ℚ))) : List (String × ℚ × ℚ) :=
  projected_dfs.filterMap fun fd =>
    match getCol fd.2 curve_name with
    | some col =>
      some (fd.1, ((col.countP fun v => v.isSome) : ℚ) / (fd.2.rows.length : ℚ),
            (((qc_scores.lookup fd.1).getD []).lookup curve_name).getD 50)
    | none => none

/-- `LASHandler.select_best_source`: the candidates stably sorted by coverage
descending then QC score descending (Python's stable `list.sort` with
`reverse=True` is modelled by the stable insertion sort). -/
def select_best_source (curve_name : String) (projected_dfs : List (String × DataFrame))
    (qc_scores : List (String × List (String × ℚ))) : List (String × ℚ × ℚ) :=
  (rankCandidates curve_name projected_dfs qc_scores).insertionSort rankGe

/-- `LASHandler.fill_gaps_from_secondary`: write secondary values into the
positions where the primary is missing; the count is
`gaps_before - gaps_after`. -/
def fill_gaps_from_secondary (primary secondary : List (Option ℚ)) :
    List (Option ℚ) × ℕ :=
  let result := primary.zipWith
    (fun p s => match p with
      | some v => some v
      | none => s) secondary
  (result, (primary.countP fun v => v.isNone) - (result.countP fun v => v.isNone))

/-- The secondary-source loop of `merge_las_files` (lines 550-559): walk the
remaining ranked sources in order; when the merged curve still has gaps and
the source carries the curve, fill; accumulate the total filled count and the
identifiers (in order) of the sources that contributed at least one fill. -/
def fillLoop (projected_dfs : List (String × DataFrame)) (curve : String) :
    List (String × ℚ × ℚ) → List (Option ℚ) → List (Option ℚ) × ℕ × List String
  | [], col => (col, 0, [])
  | sec :: rest, col =>
    if col.any fun v => v.isNone then
      match projected_dfs.find? fun fd => decide (fd.1 = sec.1) with
      | some fd =>
        if curve ∈ fd.2.header then
          let fr := fill_gaps_from_secondary col (getColD fd.2 curve)
          let res := fillLoop projected_dfs curve rest fr.1
          (res.1, fr.2 + res.2.1, (if 0 < fr.2 then [sec.1] else []) ++ res.2.2)
        else fillLoop projected_dfs curve rest col
      | none => fillLoop projected_dfs curve rest col
    else fillLoop projected_dfs curve rest col

/-- Per-curve provenance entry of the merge report. -/
structure CurveInfo where
  source_file : String
  coverage : ℚ
  qc_score : ℚ
  gaps_filled_from : Option String
  gaps_count : ℕ
deriving DecidableEq

/-- The per-curve arbitration of `merge_las_files` (lines 526-564): rank the
sources, take the top-ranked source's projected column verbatim, fill gaps
from the remaining sources in rank order, and record provenance (post-fill
coverage, the primary's pre-fill QC score, the first contributing secondary,
the total fill count).  `none` when no source carries the curve. -/
def mergeOneCurve (projected_dfs : List (String × DataFrame))
    (qc_scores : List (String × List (String × ℚ))) (curve : String) :
    Option (List (Option ℚ) × CurveInfo) :=
  match select_best_source curve projected_dfs qc_scores with
  | [] => none
  | prim :: rest =>
    match projected_dfs.find? fun fd => decide (fd.1 = prim.1) with
    | some fd =>
      let col0 := getColD fd.2 curve
      let res := fillLoop projected_dfs curve rest col0
      some (res.1,
        { source_file := prim.1,
          coverage := ((res.1.countP fun v => v.isSome) : ℚ) / (col0.length : ℚ),
          qc_score := prim.2.2,
          gaps_filled_from := res.2.2.head?,
          gaps_count := res.2.1 })
    | none => none

/-- Grid description of the merge report. -/
structure MasterDepthInfo where
  dmin : ℚ
  dmax : ℚ
  step : ℚ
  points : ℕ
deriving DecidableEq

/-- `MergeReport`. -/
structure MergeReport where
  curves : List (String × CurveInfo)
  master_depth : MasterDepthInfo
  files_processed : List String
  warnings : List String
  well_name : String
deriving DecidableEq

/-- The dictionary returned by `merge_las_files`. -/
structure MergeResult where
  merged_df : DataFrame
  merge_report : MergeReport
deriving DecidableEq

/-- An upstream LAS parser object, reduced to the adapter contract the merge
actually reads: the data frame plus `well_name` (default Unknown),
`depth_unit` (default FT) and `null_value` (default -999.25) metadata. -/
structure LASObj where
  data : DataFrame
  well_name : String
  depth_unit : String
  null_value : ℚ
deriving DecidableEq

/-- The null-sentinel list the merge passes to normalization:
`[null_val] + COMMON_NULL_VALUES if null_val else COMMON_NULL_VALUES`
(a declared sentinel of 0 is falsy in Python and is dropped; the built-in
list is always kept). -/
def mergeNullList (null_val : ℚ) : List ℚ :=
  if null_val = 0 then COMMON_NULL_VALUES else null_val :: COMMON_NULL_VALUES

/-- Index-based fallback identifier `File_{i+1}`. -/
def fallbackName (i : ℕ) : String := "File_" ++ toString (i + 1)

/-- The identifier used for source `i`:
`file_identifiers[i] if file_identifiers and i < len(file_identifiers)`. -/
def fileIdFor (ids : Option (List String)) (i : ℕ) : String :=
  match ids with
  | some l => if i < l.length then l.getD i "" else fallbackName i
  | none => fallbackName i

/-- The normalization loop of `merge_las_files` (lines 460-480): returns the
surviving normalized frames, their identifiers, and the warnings for the
sources whose normalization failed. -/
def normalizeAll (las_objects : List LASObj) (ids : Option (List String)) :
    List DataFrame × List String × List String :=
  las_objects.enum.foldl
    (fun acc ia =>
      match normalize_las_dataframe ia.2.data (mergeNullList ia.2.null_value)
          ia.2.depth_unit with
      | .ok nd => (acc.1 ++ [nd], acc.2.1 ++ [fileIdFor ids ia.1], acc.2.2)
      | .error e =>
        (acc.1, acc.2.1,
         acc.2.2 ++ ["Error normalizing " ++ fileIdFor ids ia.1 ++ ": " ++ e]))
    ([], [], [])

/-- The adaptive gap limit (lines 489-500): the larger of 5.0 and ten times
the median of the per-table median depth steps; 5.0 when no table has one. -/
def adaptiveGapLimit (dfs : List DataFrame) : ℚ :=
  let med_steps := dfs.filterMap fun df =>
    if "DEPTH" ∈ df.header ∧ 1 < df.rows.length then
      let steps := diffDropna (getColD df "DEPTH")
      if steps.isEmpty then none else some (npMedian steps)
    else none
  if med_steps.isEmpty then 5 else max 5 (10 * npMedian med_steps)

/-- `LASHandler.merge_las_files`.  `setOrder` models the iteration order of
Python's unordered `set`: it reorders the insertion-ordered list of distinct
elements (the identity, a reversal, ... each hash seed induces one such
function).  The source iterates `well_names` and `all_curves` through sets,
so the merged column order, the multiple-wells warning text, and the reported
well name all go through `setOrder`. -/
def merge_las_files (las_objects : List LASObj) (ids : Option (List String))
    (step_ft : ℚ) (gap_limit_ft : Option ℚ) (setOrder : List String → List String) :
    Except String MergeResult :=
  match las_objects with
  | [] => .error "No LAS files provided"
  | [las] =>
    .ok { merged_df := las.data,
          merge_report :=
            { curves := [],
              master_depth := ⟨0, 0, step_ft, 0⟩,
              files_processed := [match ids with
                | some (x :: _) => x
                | _ => las.well_name],
              warnings := ["Single file provided, no merge needed"],
              well_name := las.well_name } }
  | _ :: _ :: _ =>
    let wellNames := insertionDedup (las_objects.map fun o => o.well_name)
    let warns0 :=
      if 1 < wellNames.length then
        ["Multiple wells detected: " ++ String.intercalate ", " (setOrder wellNames)]
      else []
    let nfw := normalizeAll las_objects ids
    if nfw.1.isEmpty then .error "No files could be normalized"
    else
      match build_master_depth nfw.1 step_ft with
      | .error e => .error e
      | .ok master =>
        let gap := gap_limit_ft.getD (adaptiveGapLimit nfw.1)
        let projected := nfw.2.1.zip
          (nfw.1.map fun df => project_to_master_grid df master gap step_ft)
        let qc := projected.map fun fd =>
          (fd.1, (fd.2.header.filter fun c => decide (c ≠ "DEPTH")).map fun c =>
            (c, curve_qc_score (getColD fd.2 c) (some (strUpper c))))
        let allCurves := insertionDedup
          ((projected.map fun fd => fd.2.header.filter fun c => decide (c ≠ "DEPTH")).flatten)
        let mcs := (setOrder allCurves).filterMap fun c =>
          (mergeOneCurve projected qc c).map fun r => (c, r)
        .ok { merged_df :=
                { header := "DEPTH" :: mcs.map fun c => c.1,
                  rows := (List.range master.length).map fun i =>
                    some (master.getD i 0) :: mcs.map fun c => c.2.1.getD i none },
              merge_report :=
                { curves := mcs.map fun c => (c.1, c.2.2),
                  master_depth := ⟨listMinD master 0, listMaxD master 0, step_ft,
                                   master.length⟩,
                  files_processed := nfw.2.1,
                  warnings := warns0 ++ nfw.2.2,
                  well_name := (setOrder wellNames).headD "Unknown" } }

/-- A source whose table has a depth column but zero rows: normalization
succeeds on it, yet it contributes no usable depth data to the grid. -/
def demoEmptyDepthObj : LASObj := ⟨⟨["DEPTH"], []⟩, "W", "FT", -999.25⟩

/-- A source whose table has no depth column: its normalization fails. -/
def demoNoDepthObj : LASObj := ⟨⟨["GR"], [[some 1]]⟩, "W", "FT", -999.25⟩

/-- A well-formed two-row source. -/
def demoGoodA : LASObj :=
  ⟨⟨["DEPTH", "GR"], [[some 100, some 50], [some 101, some 60]]⟩, "W", "FT", -999.25⟩

/-- A second well-formed source. -/
def demoGoodB : LASObj := ⟨⟨["DEPTH", "GR"], [[some 100, some 55]]⟩, "W", "FT", -999.25⟩

/-- Two-source demo for the C2 witness: source A carries GR with full
coverage and QC 80; source B carries GR with half coverage and QC 95. -/
def demoProj : List (String × DataFrame) :=
  [("A", ⟨["GR"], [[some 1], [some 2]]⟩), ("B", ⟨["GR"], [[some 5], [none]]⟩)]

/-- QC scores for the C2 witness demo. -/
def demoQc : List (String × List (String × ℚ)) :=
  [("A", [("GR", 80)]), ("B", [("GR", 95)])]

/-- Two sources over the same one-row table with distinct well names;
WELL_A is encountered first in input order. -/
def demoWellA : LASObj := ⟨⟨["DEPTH", "GR"], [[some 100, some 50]]⟩, "WELL_A", "FT", -999.25⟩

/-- Second demo source, well name WELL_B. -/
def demoWellB : LASObj := ⟨⟨["DEPTH", "GR"], [[some 100, some 60]]⟩, "WELL_B", "FT", -999.25⟩

/-- The reported well name of a merge outcome, when it succeeded. -/
def reportWellName (r : Except String MergeResult) : Option String :=
  match r with
  | .ok m => some m.merge_report.well_name
  | .error _ => none

/-! ## Helper lemmas -/

theorem maskValue_none (nulls : List ℚ) : maskValue nulls none = none := by
  induction nulls with
  | nil => rfl
  | cons n rest ih => exact ih

theorem maskValue_some_eq_none_iff (nulls : List ℚ) (v : ℚ) :
    maskValue nulls (some v) = none ↔ ∃ s ∈ nulls, |v - s| < 1 / 100 := by
  induction nulls with
  | nil => simp [maskValue]
  | cons n rest ih =>
    by_cases h : |v - n| < 1 / 100
    · constructor
      · intro _
        exact ⟨n, List.mem_cons_self n rest, h⟩
      · intro _
        have step : maskValue (n :: rest) (some v) = maskValue rest none := by
          show List.foldl _ (if |v - n| < 1 / 100 then none else some v) rest =
            maskValue rest none
          rw [if_pos h]
          rfl
        rw [step, maskValue_none]
    · have step : maskValue (n :: rest) (some v) = maskValue rest (some v) := by
        show List.foldl _ (if |v - n| < 1 / 100 then none else some v) rest =
          maskValue rest (some v)
        rw [if_neg h]
        rfl
      rw [step, ih]
      constructor
      · rintro ⟨s, hs, hlt⟩
        exact ⟨s, List.mem_cons_of_mem n hs, hlt⟩
      · rintro ⟨s, hs, hlt⟩
        rcases List.mem_cons.mp hs with rfl | hs'
        · exact absurd hlt h
        · exact ⟨s, hs', hlt⟩

theorem common_subset_mergeNullList (nv : ℚ) :
    COMMON_NULL_VALUES ⊆ mergeNullList nv := by
  intro x hx
  unfold mergeNullList
  split
  · exact hx
  · exact List.mem_cons_of_mem _ hx

theorem getElem?_zip_pair (l₁ : List α) (l₂ : List β) (i : ℕ) :
    (l₁.zip l₂)[i]? =
      match l₁[i]?, l₂[i]? with
      | some a, some b => some (a, b)
      | _, _ => none := by
  induction l₁ generalizing l₂ i with
  | nil => simp
  | cons a l ih =>
    cases l₂ with
    | nil => simp
    | cons b l' =>
      cases i with
      | zero => simp
      | succ n => simpa using ih l' n

theorem takeWhile_append_all (p : α → Bool) (l1 l2 : List α)
    (h : ∀ x ∈ l1, p x = true) :
    (l1 ++ l2).takeWhile p = l1 ++ l2.takeWhile p := by
  induction l1 with
  | nil => simp
  | cons a l ih =>
    rw [List.cons_append, List.takeWhile_cons_of_pos (h a (List.mem_cons_self a l)),
      ih fun x hx => h x (List.mem_cons_of_mem a hx), List.cons_append]

theorem searchsortedLeft_of_bracket (pre post : List ℚ) (av bv xi : ℚ)
    (hpre : ∀ x ∈ pre, x < xi) (ha : av < xi) (hb : ¬bv < xi) :
    searchsortedLeft (pre ++ av :: bv :: post) xi = pre.length + 1 := by
  unfold searchsortedLeft
  have h1 : ∀ x ∈ pre ++ [av], (fun x => decide (x < xi)) x = true := by
    intro x hx
    rcases List.mem_append.mp hx with hx | hx
    · exact decide_eq_true (hpre x hx)
    · rw [List.mem_singleton.mp hx]
      exact decide_eq_true ha
  have hsplit : pre ++ av :: bv :: post = (pre ++ [av]) ++ bv :: post := by simp
  rw [hsplit, takeWhile_append_all _ _ _ h1,
    List.takeWhile_cons_of_neg (by simpa using hb)]
  simp

theorem getD_append_length (l1 : List α) (x : α) (l2 : List α) (d : α) :
    (l1 ++ x :: l2).getD l1.length d = x := by
  induction l1 with
  | nil => rfl
  | cons a l ih => simpa using ih

theorem getD_append_length_succ (l1 : List α) (x y : α) (l2 : List α) (d : α) :
    (l1 ++ x :: y :: l2).getD (l1.length + 1) d = y := by
  induction l1 with
  | nil => rfl
  | cons a l ih => simpa using ih

theorem fst_le_getLast_of_sorted (s : List (ℚ × ℚ)) (hne : s ≠ [])
    (hs : List.Pairwise (fun u v : ℚ × ℚ => u.1 < v.1) s) :
    ∀ x ∈ s, x.1 ≤ (s.getLast hne).1 := by
  induction s with
  | nil => exact absurd rfl hne
  | cons a l ih =>
    intro x hx
    cases l with
    | nil =>
      obtain rfl := List.mem_singleton.mp hx
      simp
    | cons b m =>
      rw [List.getLast_cons (List.cons_ne_nil b m)]
      rcases List.mem_cons.mp hx with rfl | hx'
      · exact le_of_lt ((List.pairwise_cons.mp hs).1 _ (List.getLast_mem _))
      · exact ih (List.cons_ne_nil b m) (List.pairwise_cons.mp hs).2 x hx'

theorem interpAt_bracket (pre post : List (ℚ × ℚ)) (a b : ℚ × ℚ) (gap_limit xi : ℚ)
    (hs : List.Pairwise (fun u v : ℚ × ℚ => u.1 < v.1) (pre ++ a :: b :: post))
    (ha : a.1 < xi) (hb : xi ≤ b.1) :
    interpAt (pre ++ a :: b :: post) gap_limit xi =
      if b.1 - a.1 ≤ gap_limit then
        some (a.2 * (1 - (xi - a.1) / (b.1 - a.1)) + b.2 * ((xi - a.1) / (b.1 - a.1)))
      else none := by
  have hne : pre ++ a :: b :: post ≠ [] := by simp
  have hpre : ∀ x ∈ pre.map Prod.fst, x < xi := by
    intro x hx
    obtain ⟨u, hu, rfl⟩ := List.mem_map.mp hx
    exact lt_trans
      ((List.pairwise_append.mp hs).2.2 u hu a (List.mem_cons_self _ _)) ha
  have hk : searchsortedLeft ((pre ++ a :: b :: post).map Prod.fst) xi =
      pre.length + 1 := by
    have hmap : (pre ++ a :: b :: post).map Prod.fst =
        pre.map Prod.fst ++ a.1 :: b.1 :: post.map Prod.fst := by simp
    rw [hmap, searchsortedLeft_of_bracket _ _ _ _ _ hpre ha (not_lt.mpr hb)]
    simp
  unfold interpAt
  rw [dif_neg hne]
  dsimp only
  rw [hk, if_neg (Nat.succ_ne_zero pre.length)]
  have hlen : ¬((pre ++ a :: b :: post).length ≤ pre.length + 1) := by
    simp only [List.length_append, List.length_cons]
    omega
  rw [if_neg hlen, Nat.add_sub_cancel, getD_append_length, getD_append_length_succ]

theorem interpAt_low (s : List (ℚ × ℚ)) (hne : s ≠ []) (gap_limit xi : ℚ)
    (hx : xi ≤ (s.head hne).1) :
    interpAt s gap_limit xi =
      if (s.head hne).1 - xi ≤ gap_limit then some (s.head hne).2 else none := by
  have hk : searchsortedLeft (s.map Prod.fst) xi = 0 := by
    obtain ⟨a, l, rfl⟩ := List.exists_cons_of_ne_nil hne
    unfold searchsortedLeft
    rw [List.map_cons, List.takeWhile_cons_of_neg (by simpa using not_lt.mpr hx)]
    rfl
  have habs : |xi - (s.head hne).1| = (s.head hne).1 - xi := by
    rw [abs_sub_comm, abs_of_nonneg (by linarith)]
  unfold interpAt
  rw [dif_neg hne]
  dsimp only
  rw [hk, if_pos rfl, habs]

theorem interpAt_high (s : List (ℚ × ℚ)) (hne : s ≠ []) (gap_limit xi : ℚ)
    (hs : List.Pairwise (fun u v : ℚ × ℚ => u.1 < v.1) s)
    (hx : (s.getLast hne).1 < xi) :
    interpAt s gap_limit xi =
      if xi - (s.getLast hne).1 ≤ gap_limit then some (s.getLast hne).2 else none := by
  have hall : ∀ x ∈ s.map Prod.fst, (fun x => decide (x < xi)) x = true := by
    intro x hx'
    obtain ⟨u, hu, rfl⟩ := List.mem_map.mp hx'
    exact decide_eq_true (lt_of_le_of_lt (fst_le_getLast_of_sorted s hne hs u hu) hx)
  have hk : searchsortedLeft (s.map Prod.fst) xi = s.length := by
    unfold searchsortedLeft
    rw [← List.append_nil (s.map Prod.fst), takeWhile_append_all _ _ _ hall]
    simp
  have h0 : s.length ≠ 0 := fun h => hne (List.length_eq_zero.mp h)
  have habs : |xi - (s.getLast hne).1| = xi - (s.getLast hne).1 :=
    abs_of_nonneg (by linarith)
  unfold interpAt
  rw [dif_neg hne]
  dsimp only
  rw [hk, if_neg h0, if_pos (le_refl _), habs]

theorem range_map_getD (l : List α) (d : α) :
    (List.range l.length).map (fun i => l.getD i d) = l := by
  apply List.ext_get
  · simp
  · intro n h1 h2
    simp only [List.get_map, List.get_range, List.getD_eq_getElem?_getD,
      List.getElem?_eq_getElem h2]
    rfl

theorem projectCol_length (df : DataFrame) (master : List ℚ) (gap_limit step : ℚ)
    (c : String) : (projectCol df master gap_limit step c).length = master.length := by
  unfold projectCol
  dsimp only
  split
  · simp
  · split
    · simp [nearest_neighbor_interp]
    · simp [linear_interp_with_gap_limit]

theorem getCol_project (df : DataFrame) (master : List ℚ) (gap_limit step : ℚ)
    (c : String) (hdep : "DEPTH" ∈ df.header) (hc : c ∈ df.header)
    (hcd : c ≠ "DEPTH") :
    getCol (project_to_master_grid df master gap_limit step) c =
      some (projectCol df master gap_limit step c) := by
  have hcc : c ∈ df.header.filter fun x => decide (x ≠ "DEPTH") :=
    List.mem_filter.mpr ⟨hc, by simpa using hcd⟩
  unfold project_to_master_grid
  rw [if_pos hdep]
  unfold getCol
  rw [if_pos (List.mem_cons_of_mem _ hcc)]
  have hidx : ("DEPTH" :: df.header.filter fun x => decide (x ≠ "DEPTH")).indexOf c =
      (df.header.filter fun x => decide (x ≠ "DEPTH")).indexOf c + 1 := by
    simp [List.indexOf_cons, beq_eq_false_iff_ne.mpr (Ne.symm hcd)]
  dsimp only
  rw [hidx, List.map_map]
  have hpt : ∀ i ∈ List.range master.length,
      ((fun r : List (Option ℚ) =>
          r.getD ((df.header.filter fun x => decide (x ≠ "DEPTH")).indexOf c + 1) none) ∘
        fun i => some (master.getD i 0) ::
          (df.header.filter fun x => decide (x ≠ "DEPTH")).map fun c' =>
            (projectCol df master gap_limit step c').getD i none) i =
        (projectCol df master gap_limit step c).getD i none := by
    intro i _
    simp only [Function.comp_apply, List.getD_eq_getElem?_getD,
      List.getElem?_cons_succ, List.getElem?_map, List.getElem?_indexOf hcc,
      Option.map_some', Option.getD_some]
  rw [List.map_congr_left hpt]
  have hfin := range_map_getD (projectCol df master gap_limit step c) (none : Option ℚ)
  rw [projectCol_length] at hfin
  rw [hfin]

theorem projectCol_linear (df : DataFrame) (master : List ℚ) (gap_limit step : ℚ)
    (c : String) (hd : is_discrete_curve c = false) (hp : validPairs df c ≠ []) :
    projectCol df master gap_limit step c =
      master.map (interpAt ((validPairs df c).insertionSort pairFstLe) gap_limit) := by
  unfold projectCol
  dsimp only
  rw [if_neg (by simpa using hp), if_neg (by simp [hd])]
  rfl

theorem insertionSort_eq_of_sorted (xy : List (ℚ × ℚ))
    (hs : List.Pairwise (fun u v : ℚ × ℚ => u.1 < v.1) xy) :
    xy.insertionSort pairFstLe = xy :=
  List.Sorted.insertionSort_eq (hs.imp fun h => le_of_lt h)

theorem pairLexLe_total (p q : ℚ × ℚ) : pairLexLe p q ∨ pairLexLe q p := by
  unfold pairLexLe
  rcases lt_trichotomy p.1 q.1 with h | h | h
  · exact Or.inl (Or.inl h)
  · rcases le_total p.2 q.2 with h2 | h2
    · exact Or.inl (Or.inr ⟨h, h2⟩)
    · exact Or.inr (Or.inr ⟨h.symm, h2⟩)
  · exact Or.inr (Or.inl h)

theorem pairLexLe_trans ⦃p q r : ℚ × ℚ⦄ (h1 : pairLexLe p q) (h2 : pairLexLe q r) :
    pairLexLe p r := by
  unfold pairLexLe at h1 h2 ⊢
  rcases h1 with h1 | ⟨e1, l1⟩
  · rcases h2 with h2 | ⟨e2, l2⟩
    · exact Or.inl (lt_trans h1 h2)
    · exact Or.inl (e2 ▸ h1)
  · rcases h2 with h2 | ⟨e2, l2⟩
    · exact Or.inl (e1 ▸ h2)
    · exact Or.inr ⟨e1.trans e2, le_trans l1 l2⟩

instance : IsTotal (String × ℚ × ℚ) rankGe :=
  ⟨fun a b => (pairLexLe_total (rankKey a) (rankKey b)).symm⟩

instance : IsTrans (String × ℚ × ℚ) rankGe :=
  ⟨fun _ _ _ h1 h2 => pairLexLe_trans h2 h1⟩

theorem rankGe_of_key_eq (a b : String × ℚ × ℚ) (h : rankKey a = rankKey b) :
    rankGe a b :=
  Or.inr ⟨congrArg Prod.fst h.symm, le_of_eq (congrArg Prod.snd h.symm)⟩

theorem filter_orderedInsert_pos (r : α → α → Prop) [DecidableRel r] (p : α → Bool)
    (a : α) (hpa : p a = true) (hr : ∀ b, p b = true → r a b) :
    ∀ l : List α, (l.orderedInsert r a).filter p = a :: l.filter p
  | [] => by simp [List.orderedInsert, hpa]
  | b :: l => by
    by_cases hab : r a b
    · rw [List.orderedInsert, if_pos hab, List.filter_cons_of_pos hpa]
    · rw [List.orderedInsert, if_neg hab]
      have hpb : p b = false := by
        rcases Bool.eq_false_or_eq_true (p b) with h | h
        · exact absurd (hr b h) hab
        · exact h
      rw [List.filter_cons_of_neg (by simp [hpb]),
        List.filter_cons_of_neg (by simp [hpb]),
        filter_orderedInsert_pos r p a hpa hr l]

theorem filter_orderedInsert_neg (r : α → α → Prop) [DecidableRel r] (p : α → Bool)
    (a : α) (hpa : p a = false) :
    ∀ l : List α, (l.orderedInsert r a).filter p = l.filter p
  | [] => by simp [List.orderedInsert, hpa]
  | b :: l => by
    by_cases hab : r a b
    · rw [List.orderedInsert, if_pos hab, List.filter_cons_of_neg (by simp [hpa])]
    · rw [List.orderedInsert, if_neg hab]
      by_cases hpb : p b = true
      · rw [List.filter_cons_of_pos hpb, List.filter_cons_of_pos hpb,
          filter_orderedInsert_neg r p a hpa l]
      · rw [List.filter_cons_of_neg (by simpa using hpb),
          List.filter_cons_of_neg (by simpa using hpb),
          filter_orderedInsert_neg r p a hpa l]

theorem filter_insertionSort_key {K : Type} [DecidableEq K] (key : α → K)
    (r : α → α → Prop) [DecidableRel r] (hrefl : ∀ a b, key a = key b → r a b)
    (k : K) : ∀ l : List α,
      ((l.insertionSort r).filter fun x => decide (key x = k)) =
        l.filter fun x => decide (key x = k)
  | [] => rfl
  | a :: l => by
    simp only [List.insertionSort]
    by_cases hk : key a = k
    · rw [filter_orderedInsert_pos r _ a (decide_eq_true hk)
        (fun b hb => hrefl a b (hk.trans (of_decide_eq_true hb).symm)),
        filter_insertionSort_key key r hrefl k l]
      simp [List.filter_cons, hk]
    · rw [filter_orderedInsert_neg r _ a (decide_eq_false hk),
        filter_insertionSort_key key r hrefl k l]
      simp [List.filter_cons, hk]

theorem pairwise_getElem?_rel {R : α → α → Prop} {l : List α} (h : l.Pairwise R)
    (i j : ℕ) (a b : α) (hij : i < j) (ha : l[i]? = some a) (hb : l[j]? = some b) :
    R a b := by
  obtain ⟨hi, rfl⟩ := List.getElem?_eq_some.mp ha
  obtain ⟨hj, rfl⟩ := List.getElem?_eq_some.mp hb
  exact List.pairwise_iff_getElem.mp h i j hi hj hij

theorem getColD_length (df : DataFrame) (c : String) (hc : c ∈ df.header) :
    (getColD df c).length = df.rows.length := by
  unfold getColD getCol
  rw [if_pos hc]
  simp

theorem fill_gaps_getElem? (p s : List (Option ℚ)) (i : ℕ) :
    (fill_gaps_from_secondary p s).1[i]? =
      (p[i]?).bind fun pv => (s[i]?).map fun sv =>
        match pv with
        | some v => some v
        | none => sv := by
  have h := List.get?_zipWith'
    (fun pv sv : Option ℚ =>
      match pv with
      | some v => some v
      | none => sv) p s i
  simp only [List.get?_eq_getElem?] at h
  rw [show (fill_gaps_from_secondary p s).1 =
    List.zipWith
      (fun pv sv : Option ℚ =>
        match pv with
        | some v => some v
        | none => sv) p s from rfl, h]
  cases p[i]? with
  | none => rfl
  | some pv =>
    cases s[i]? with
    | none => rfl
    | some sv => rfl

theorem fill_gaps_preserves (p s : List (Option ℚ)) (i : ℕ) (v : ℚ)
    (hlen : p.length ≤ s.length) (h : p[i]? = some (some v)) :
    (fill_gaps_from_secondary p s).1[i]? = some (some v) := by
  obtain ⟨hi, -⟩ := List.getElem?_eq_some.mp h
  rw [fill_gaps_getElem?, h, List.getElem?_eq_getElem (lt_of_lt_of_le hi hlen)]
  rfl

theorem fill_gaps_length (p s : List (Option ℚ)) (hlen : p.length ≤ s.length) :
    (fill_gaps_from_secondary p s).1.length = p.length := by
  unfold fill_gaps_from_secondary
  dsimp only
  rw [List.length_zipWith]
  exact Nat.min_eq_left hlen

theorem fillLoop_frame (projected : List (String × DataFrame)) (curve : String) :
    ∀ (rks : List (String × ℚ × ℚ)) (col : List (Option ℚ)),
      (∀ fd ∈ projected, col.length ≤ fd.2.rows.length) →
      (fillLoop projected curve rks col).1.length = col.length ∧
      (∀ (i : ℕ) (v : ℚ), col[i]? = some (some v) →
        (fillLoop projected curve rks col).1[i]? = some (some v))
  | [], _ => fun _ => ⟨rfl, fun _ _ h => h⟩
  | sec :: rest, col => fun hlen => by
    simp only [fillLoop]
    split
    · split
      · rename_i fd hfd
        split
        · rename_i hmem
          have hfdmem := List.mem_of_find?_eq_some hfd
          have hslen : col.length ≤ (getColD fd.2 curve).length := by
            rw [getColD_length fd.2 curve hmem]
            exact hlen fd hfdmem
          have hflen : (fill_gaps_from_secondary col (getColD fd.2 curve)).1.length =
              col.length := fill_gaps_length col (getColD fd.2 curve) hslen
          have hlen' : ∀ fd' ∈ projected,
              (fill_gaps_from_secondary col (getColD fd.2 curve)).1.length ≤
                fd'.2.rows.length := by
            intro fd' hfd'
            rw [hflen]
            exact hlen fd' hfd'
          obtain ⟨ihlen, ihpres⟩ := fillLoop_frame projected curve rest
            (fill_gaps_from_secondary col (getColD fd.2 curve)).1 hlen'
          refine ⟨?_, ?_⟩
          · dsimp only
            rw [ihlen, hflen]
          · intro i v hv
            dsimp only
            exact ihpres i v (fill_gaps_preserves col (getColD fd.2 curve) i v hslen hv)
        · exact fillLoop_frame projected curve rest col hlen
      · exact fillLoop_frame projected curve rest col hlen
    · exact fillLoop_frame projected curve rest col hlen

theorem countP_isSome_add_isNone (l : List (Option ℚ)) :
    (l.countP fun v => v.isSome) + (l.countP fun v => v.isNone) = l.length := by
  induction l with
  | nil => rfl
  | cons a t ih =>
    cases a with
    | none => simp [List.countP_cons, ih]; omega
    | some v => simp [List.countP_cons, ih]; omega

theorem countNone_fill_aux :
    ∀ (p s : List (Option ℚ)), p.length ≤ s.length →
      ((fill_gaps_from_secondary p s).1.countP fun v => v.isNone) +
        ((p.zip s).countP fun pr => pr.1.isNone && pr.2.isSome) =
        p.countP fun v => v.isNone
  | [], _, _ => by simp [fill_gaps_from_secondary]
  | pv :: pt, [], hlen => by simp at hlen
  | pv :: pt, sv :: st, hlen => by
    have ih := countNone_fill_aux pt st (by simpa using hlen)
    show ((List.zipWith
        (fun a b : Option ℚ =>
          match a with
          | some v => some v
          | none => b) (pv :: pt) (sv :: st)).countP fun v => v.isNone) + _ = _
    rw [List.zipWith_cons_cons, List.zip_cons_cons]
    rw [show (fill_gaps_from_secondary pt st).1 =
      List.zipWith
        (fun a b : Option ℚ =>
          match a with
          | some v => some v
          | none => b) pt st from rfl] at ih
    cases pv with
    | some v =>
      simp only [List.countP_cons] at ih ⊢
      simp only [Option.isNone_some, Option.isSome_some, Bool.false_and]
      simpa using ih
    | none =>
      cases sv with
      | some w =>
        dsimp only
        simp only [List.countP_cons]
        simp
        omega
      | none =>
        dsimp only
        simp only [List.countP_cons]
        simp
        omega


theorem fill_gaps_count (p s : List (Option ℚ)) (hlen : p.length ≤ s.length) :
    (fill_gaps_from_secondary p s).2 =
      ((p.zip s).countP fun pr => pr.1.isNone && pr.2.isSome) ∧
    ((fill_gaps_from_secondary p s).1.countP fun v => v.isSome) =
      (p.countP fun v => v.isSome) + (fill_gaps_from_secondary p s).2 := by
  have hA := countNone_fill_aux p s hlen
  have hB := countP_isSome_add_isNone (fill_gaps_from_secondary p s).1
  have hC := countP_isSome_add_isNone p
  have hL := fill_gaps_length p s hlen
  have h2 : (fill_gaps_from_secondary p s).2 =
      (p.countP fun v => v.isNone) -
        ((fill_gaps_from_secondary p s).1.countP fun v => v.isNone) := rfl
  rw [hL] at hB
  omega

theorem fillLoop_count (projected : List (String × DataFrame)) (curve : String) :
    ∀ (rks : List (String × ℚ × ℚ)) (col : List (Option ℚ)),
      (∀ fd ∈ projected, col.length ≤ fd.2.rows.length) →
      (col.countP fun v => v.isSome) ≤
        ((fillLoop projected curve rks col).1.countP fun v => v.isSome) ∧
      (fillLoop projected curve rks col).2.1 =
        ((fillLoop projected curve rks col).1.countP fun v => v.isSome) -
          (col.countP fun v => v.isSome)
  | [], _ => fun _ => ⟨le_refl _, (Nat.sub_self _).symm⟩
  | sec :: rest, col => fun hlen => by
    simp only [fillLoop]
    split
    · split
      · rename_i fd hfd
        split
        · rename_i hmem
          have hfdmem := List.mem_of_find?_eq_some hfd
          have hslen : col.length ≤ (getColD fd.2 curve).length := by
            rw [getColD_length fd.2 curve hmem]
            exact hlen fd hfdmem
          have hflen := fill_gaps_length col (getColD fd.2 curve) hslen
          have hfc := (fill_gaps_count col (getColD fd.2 curve) hslen).2
          have hlen' : ∀ fd' ∈ projected,
              (fill_gaps_from_secondary col (getColD fd.2 curve)).1.length ≤
                fd'.2.rows.length := by
            intro fd' hfd'
            rw [hflen]
            exact hlen fd' hfd'
          obtain ⟨ihle, ihcount⟩ := fillLoop_count projected curve rest
            (fill_gaps_from_secondary col (getColD fd.2 curve)).1 hlen'
          dsimp only
          omega
        · exact fillLoop_count projected curve rest col hlen
      · exact fillLoop_count projected curve rest col hlen
    · exact fillLoop_count projected curve rest col hlen

theorem fillLoop_append (projected : List (String × DataFrame)) (curve : String) :
    ∀ (r1 r2 : List (String × ℚ × ℚ)) (col : List (Option ℚ)),
      fillLoop projected curve (r1 ++ r2) col =
        ((fillLoop projected curve r2 (fillLoop projected curve r1 col).1).1,
         (fillLoop projected curve r1 col).2.1 +
           (fillLoop projected curve r2 (fillLoop projected curve r1 col).1).2.1,
         (fillLoop projected curve r1 col).2.2 ++
           (fillLoop projected curve r2 (fillLoop projected curve r1 col).1).2.2)
  | [], r2, col => by simp [fillLoop]
  | sec :: r1', r2, col => by
    rw [List.cons_append]
    show fillLoop projected curve (sec :: (r1' ++ r2)) col = _
    simp only [fillLoop]
    split
    · split
      · split
        · rw [fillLoop_append projected curve r1' r2]
          dsimp only
          refine congrArg₂ _ rfl (congrArg₂ _ ?_ ?_)
          · omega
          · rw [List.append_assoc]
        · exact fillLoop_append projected curve r1' r2 col
      · exact fillLoop_append projected curve r1' r2 col
    · exact fillLoop_append projected curve r1' r2 col

theorem fillLoop_first_contributor (projected : List (String × DataFrame))
    (curve : String) :
    ∀ (rks : List (String × ℚ × ℚ)) (col : List (Option ℚ)),
      ((fillLoop projected curve rks col).2.2 = [] ↔
        (fillLoop projected curve rks col).2.1 = 0) ∧
      (∀ f : String, ((fillLoop projected curve rks col).2.2).head? = some f →
        ∃ (pre : List (String × ℚ × ℚ)) (e : String × ℚ × ℚ)
          (post : List (String × ℚ × ℚ)),
          rks = pre ++ e :: post ∧ e.1 = f ∧
          (fillLoop projected curve pre col).2.1 = 0 ∧
          0 < (fillLoop projected curve (pre ++ [e]) col).2.1)
  | [], col => by simp [fillLoop]
  | sec :: rest, col => by
    by_cases hany : (col.any fun v => v.isNone) = true
    · rcases hfind : projected.find? fun fd => decide (fd.1 = sec.1) with - | fd
      · have hskip : ∀ X : List (String × ℚ × ℚ),
            fillLoop projected curve (sec :: X) col =
              fillLoop projected curve X col := by
          intro X
          simp only [fillLoop]
          rw [if_pos hany, hfind]
        obtain ⟨ih1, ih2⟩ := fillLoop_first_contributor projected curve rest col
        rw [hskip]
        refine ⟨ih1, ?_⟩
        intro f hf
        obtain ⟨pre, e, post, hrk, he, h0, hpos⟩ := ih2 f hf
        exact ⟨sec :: pre, e, post, by simp [hrk], he,
          by rw [hskip]; exact h0, by rw [List.cons_append, hskip]; exact hpos⟩
      · by_cases hmem : curve ∈ fd.2.header
        · have hstep : ∀ X : List (String × ℚ × ℚ),
              fillLoop projected curve (sec :: X) col =
                ((fillLoop projected curve X
                    (fill_gaps_from_secondary col (getColD fd.2 curve)).1).1,
                 (fill_gaps_from_secondary col (getColD fd.2 curve)).2 +
                   (fillLoop projected curve X
                     (fill_gaps_from_secondary col (getColD fd.2 curve)).1).2.1,
                 (if 0 < (fill_gaps_from_secondary col (getColD fd.2 curve)).2 then
                    [sec.1] else []) ++
                   (fillLoop projected curve X
                     (fill_gaps_from_secondary col (getColD fd.2 curve)).1).2.2) := by
            intro X
            simp only [fillLoop]
            rw [if_pos hany, hfind]
            dsimp only
            rw [if_pos hmem]
          obtain ⟨ih1, ih2⟩ := fillLoop_first_contributor projected curve rest
            (fill_gaps_from_secondary col (getColD fd.2 curve)).1
          rw [hstep]
          dsimp only
          by_cases hfr : 0 < (fill_gaps_from_secondary col (getColD fd.2 curve)).2
          · refine ⟨?_, ?_⟩
            · rw [if_pos hfr]
              constructor
              · intro h
                cases h
              · intro h
                exact absurd h (by omega)
            · intro f hf
              rw [if_pos hfr] at hf
              simp only [List.cons_append, List.head?_cons] at hf
              obtain rfl := Option.some.inj hf
              refine ⟨[], sec, rest, rfl, rfl, rfl, ?_⟩
              rw [show ([] : List (String × ℚ × ℚ)) ++ [sec] = sec :: [] from rfl,
                hstep]
              have h0' : (fillLoop projected curve []
                  (fill_gaps_from_secondary col (getColD fd.2 curve)).1).2.1 = 0 := rfl
              dsimp only
              omega
          · have hfr0 : (fill_gaps_from_secondary col (getColD fd.2 curve)).2 = 0 := by
              omega
            refine ⟨?_, ?_⟩
            · rw [if_neg hfr, List.nil_append, hfr0]
              rw [Nat.zero_add]
              exact ih1
            · intro f hf
              rw [if_neg hfr, List.nil_append] at hf
              obtain ⟨pre, e, post, hrk, he, h0, hpos⟩ := ih2 f hf
              refine ⟨sec :: pre, e, post, by simp [hrk], he, ?_, ?_⟩
              · rw [hstep, hfr0]
                dsimp only
                omega
              · rw [List.cons_append, hstep, hfr0]
                dsimp only
                omega
        · have hskip : ∀ X : List (String × ℚ × ℚ),
              fillLoop projected curve (sec :: X) col =
                fillLoop projected curve X col := by
            intro X
            simp only [fillLoop]
            rw [if_pos hany, hfind]
            dsimp only
            rw [if_neg hmem]
          obtain ⟨ih1, ih2⟩ := fillLoop_first_contributor projected curve rest col
          rw [hskip]
          refine ⟨ih1, ?_⟩
          intro f hf
          obtain ⟨pre, e, post, hrk, he, h0, hpos⟩ := ih2 f hf
          exact ⟨sec :: pre, e, post, by simp [hrk], he,
            by rw [hskip]; exact h0, by rw [List.cons_append, hskip]; exact hpos⟩
    · have hskip : ∀ X : List (String × ℚ × ℚ),
          fillLoop projected curve (sec :: X) col =
            fillLoop projected curve X col := by
        intro X
        simp only [fillLoop]
        rw [if_neg hany]
      obtain ⟨ih1, ih2⟩ := fillLoop_first_contributor projected curve rest col
      rw [hskip]
      refine ⟨ih1, ?_⟩
      intro f hf
      obtain ⟨pre, e, post, hrk, he, h0, hpos⟩ := ih2 f hf
      exact ⟨sec :: pre, e, post, by simp [hrk], he,
        by rw [hskip]; exact h0, by rw [List.cons_append, hskip]; exact hpos⟩


/-- C6: for every input series and every optional curve-type tag,
`curve_qc_score` returns a value in [0, 100], and it returns exactly 0
whenever the series contains zero valid (non-missing) points. -/
theorem curve_qc_score_bounds (series : List (Option ℚ)) (curve_type : Option String) :
    (0 ≤ curve_qc_score series curve_type ∧ curve_qc_score series curve_type ≤ 100) ∧
    (series.filterMap id = [] → curve_qc_score series curve_type = 0) := by
  have key : curve_qc_score series curve_type = 0 ∨
      ∃ x : ℚ, curve_qc_score series curve_type = min 100 (max 0 x) := by
    unfold curve_qc_score
    dsimp only
    split
    · exact Or.inl rfl
    · split
      · exact Or.inl rfl
      · exact Or.inr ⟨_, rfl⟩
  refine ⟨?_, ?_⟩
  · obtain h | ⟨x, hx⟩ := key
    · rw [h]; norm_num
    · rw [hx]
      exact ⟨le_min (by norm_num) (le_max_left 0 x), min_le_left _ _⟩
  · intro h
    unfold curve_qc_score
    dsimp only
    split
    · rfl
    · rw [h]
      simp

/-- C3: for every continuous (non-discrete) curve, projection onto the master
grid routes through the gap-limited linear interpolation of the valid
(depth, value) samples.  At a grid point bracketed by two adjacent samples
(left sample strictly below the point, right sample at or above it) the value
is the exact piecewise-linear interpolation when the bracket span is within
the gap limit and missing when the span exceeds it — whatever the point's own
distance to the edges; at or below the first sample (resp. above the last)
the value is that edge sample's value when the distance to it is within the
gap limit, and missing otherwise. -/
theorem continuous_projection_gap_limit :
    (∀ (df : DataFrame) (master : List ℚ) (gap_limit step : ℚ) (c : String),
      "DEPTH" ∈ df.header → c ∈ df.header → c ≠ "DEPTH" →
      getCol (project_to_master_grid df master gap_limit step) c =
        some (projectCol df master gap_limit step c)) ∧
    (∀ (df : DataFrame) (master : List ℚ) (gap_limit step : ℚ) (c : String),
      is_discrete_curve c = false → validPairs df c ≠ [] →
      projectCol df master gap_limit step c =
        master.map (interpAt ((validPairs df c).insertionSort pairFstLe) gap_limit)) ∧
    (∀ xy : List (ℚ × ℚ), List.Pairwise (fun u v : ℚ × ℚ => u.1 < v.1) xy →
      xy.insertionSort pairFstLe = xy) ∧
    (∀ (pre post : List (ℚ × ℚ)) (a b : ℚ × ℚ) (gap_limit xi : ℚ),
      List.Pairwise (fun u v : ℚ × ℚ => u.1 < v.1) (pre ++ a :: b :: post) →
      a.1 < xi → xi ≤ b.1 →
      (b.1 - a.1 ≤ gap_limit →
        interpAt (pre ++ a :: b :: post) gap_limit xi =
          some (a.2 * (1 - (xi - a.1) / (b.1 - a.1)) +
                b.2 * ((xi - a.1) / (b.1 - a.1)))) ∧
      (gap_limit < b.1 - a.1 →
        interpAt (pre ++ a :: b :: post) gap_limit xi = none)) ∧
    (∀ (s : List (ℚ × ℚ)) (hne : s ≠ []) (gap_limit xi : ℚ),
      xi ≤ (s.head hne).1 →
      ((s.head hne).1 - xi ≤ gap_limit →
        interpAt s gap_limit xi = some (s.head hne).2) ∧
      (gap_limit < (s.head hne).1 - xi → interpAt s gap_limit xi = none)) ∧
    (∀ (s : List (ℚ × ℚ)) (hne : s ≠ []) (gap_limit xi : ℚ),
      List.Pairwise (fun u v : ℚ × ℚ => u.1 < v.1) s → (s.getLast hne).1 < xi →
      (xi - (s.getLast hne).1 ≤ gap_limit →
        interpAt s gap_limit xi = some (s.getLast hne).2) ∧
      (gap_limit < xi - (s.getLast hne).1 → interpAt s gap_limit xi = none)) := by
  refine ⟨getCol_project, projectCol_linear, insertionSort_eq_of_sorted, ?_, ?_, ?_⟩
  · intro pre post a b gap_limit xi hs ha hb
    constructor
    · intro h
      rw [interpAt_bracket pre post a b gap_limit xi hs ha hb, if_pos h]
    · intro h
      rw [interpAt_bracket pre post a b gap_limit xi hs ha hb, if_neg (not_le.mpr h)]
  · intro s hne gap_limit xi hx
    constructor
    · intro h
      rw [interpAt_low s hne gap_limit xi hx, if_pos h]
    · intro h
      rw [interpAt_low s hne gap_limit xi hx, if_neg (not_le.mpr h)]
  · intro s hne gap_limit xi hs hx
    constructor
    · intro h
      rw [interpAt_high s hne gap_limit xi hs hx, if_pos h]
    · intro h
      rw [interpAt_high s hne gap_limit xi hs hx, if_neg (not_le.mpr h)]

/-- Witness for C3 at the spec's example: raw samples (100, 10) and (101, 20)
with gap limit 2 project grid point 100.5 to exactly 15. -/
theorem continuous_projection_gap_limit_witness :
    linear_interp_with_gap_limit [100.5] [(100, 10), (101, 20)] 2 = [some 15] := by
  obtain ⟨-, -, hsorted, hbr, -, -⟩ := continuous_projection_gap_limit
  have h := (hbr [] [] (100, 10) (101, 20) 2 100.5 (by decide) (by norm_num)
    (by norm_num)).1 (by norm_num)
  simp only [List.nil_append] at h
  unfold linear_interp_with_gap_limit
  rw [hsorted _ (by decide)]
  dsimp only [List.map_cons, List.map_nil]
  rw [h]
  norm_num

theorem argminAux_spec (g : ℕ → Option ℚ) :
    ∀ (l : List ℚ) (i bi : ℕ) (bv : ℚ), g bi = some bv →
      (∀ k, g (i + k) = l[k]?) →
      g (argminAux l i bi bv) = some (l.foldl min bv) := by
  intro l
  induction l with
  | nil =>
    intro i bi bv hbi _
    simpa using hbi
  | cons v vs ih =>
    intro i bi bv hbi hg
    have hgi : g i = some v := by simpa using hg 0
    have hg' : ∀ k, g (i + 1 + k) = vs[k]? := by
      intro k
      have := hg (k + 1)
      rw [show i + (k + 1) = i + 1 + k by omega] at this
      simpa using this
    have hstep : argminAux (v :: vs) i bi bv =
        if v < bv then argminAux vs (i + 1) i v else argminAux vs (i + 1) bi bv := rfl
    by_cases h : v < bv
    · rw [hstep, if_pos h, ih (i + 1) i v hgi hg', List.foldl_cons,
        min_eq_right (le_of_lt h)]
    · rw [hstep, if_neg h, ih (i + 1) bi bv hbi hg', List.foldl_cons,
        min_eq_left (not_lt.mp h)]

theorem argminIdx_spec (v : ℚ) (vs : List ℚ) :
    (v :: vs)[argminIdx (v :: vs)]? = some (listMinD (v :: vs) 0) := by
  unfold argminIdx listMinD
  exact argminAux_spec (fun n => (v :: vs)[n]?) vs 1 0 v (by simp)
    (fun k => by rw [show 1 + k = k + 1 by omega]; simp)

theorem foldl_min_le_init (l : List ℚ) (b : ℚ) : l.foldl min b ≤ b := by
  induction l generalizing b with
  | nil => exact le_refl b
  | cons a t ih => exact le_trans (ih (min b a)) (min_le_left b a)

theorem foldl_min_le_mem (l : List ℚ) (b x : ℚ) (hx : x ∈ l) : l.foldl min b ≤ x := by
  induction l generalizing b with
  | nil => cases hx
  | cons a t ih =>
    rcases List.mem_cons.mp hx with rfl | hx'
    · exact le_trans (foldl_min_le_init t (min b x)) (min_le_right b x)
    · exact ih (min b a) hx'

theorem listMinD_le_mem (l : List ℚ) (d x : ℚ) (hx : x ∈ l) : listMinD l d ≤ x := by
  cases l with
  | nil => cases hx
  | cons a t =>
    rcases List.mem_cons.mp hx with rfl | hx'
    · exact foldl_min_le_init t x
    · exact foldl_min_le_mem t a x hx'

theorem foldl_max_init_le (l : List ℚ) (b : ℚ) : b ≤ l.foldl max b := by
  induction l generalizing b with
  | nil => exact le_refl b
  | cons a t ih => exact le_trans (le_max_left b a) (ih (max b a))

theorem mem_le_foldl_max (l : List ℚ) (b x : ℚ) (hx : x ∈ l) : x ≤ l.foldl max b := by
  induction l generalizing b with
  | nil => cases hx
  | cons a t ih =>
    rcases List.mem_cons.mp hx with rfl | hx'
    · exact le_trans (le_max_right b x) (foldl_max_init_le t (max b x))
    · exact ih (max b a) hx'

theorem listMin?_le_mem (l : List ℚ) (m x : ℚ) (hm : listMin? l = some m)
    (hx : x ∈ l) : m ≤ x := by
  cases l with
  | nil => cases hm
  | cons a t =>
    obtain rfl := Option.some.inj hm
    rcases List.mem_cons.mp hx with rfl | hx'
    · exact foldl_min_le_init t x
    · exact foldl_min_le_mem t a x hx'

theorem mem_le_listMax? (l : List ℚ) (M x : ℚ) (hM : listMax? l = some M)
    (hx : x ∈ l) : x ≤ M := by
  cases l with
  | nil => cases hM
  | cons a t =>
    obtain rfl := Option.some.inj hM
    rcases List.mem_cons.mp hx with rfl | hx'
    · exact foldl_max_init_le t x
    · exact mem_le_foldl_max t a x hx'

theorem listMin?_le_listMax? (l : List ℚ) (m M : ℚ) (hm : listMin? l = some m)
    (hM : listMax? l = some M) : m ≤ M := by
  cases l with
  | nil => cases hm
  | cons a t =>
    exact le_trans (listMin?_le_mem (a :: t) m a hm (List.mem_cons_self a t))
      (mem_le_listMax? (a :: t) M a hM (List.mem_cons_self a t))

theorem arangeQ_eq (lo stop step : ℚ) (K : ℤ) (hK : 0 ≤ K) (hstep : 0 < step)
    (hstop : stop = lo + ((K : ℚ) + 1) * step) :
    arangeQ lo stop step =
      (List.range (K.toNat + 1)).map fun k : ℕ => lo + (k : ℚ) * step := by
  unfold arangeQ
  have h1 : (stop - lo) / step = (K : ℚ) + 1 := by
    rw [hstop, add_sub_cancel_left, mul_div_assoc, div_self (ne_of_gt hstep), mul_one]
  have h2 : (⌈((K : ℚ) + 1)⌉ : ℤ) = K + 1 := by
    rw [show ((K : ℚ) + 1) = ((K + 1 : ℤ) : ℚ) by push_cast; ring]
    exact Int.ceil_intCast _
  have h3 : (K + 1).toNat = K.toNat + 1 := by omega
  rw [h1, h2, h3]

theorem arangeQ_value (lo stop step : ℚ) (i : ℕ) (a : ℚ)
    (h : (arangeQ lo stop step)[i]? = some a) : a = lo + (i : ℚ) * step := by
  unfold arangeQ at h
  rw [List.getElem?_map] at h
  cases hr : (List.range (⌈(stop - lo) / step⌉).toNat)[i]? with
  | none =>
    rw [hr] at h
    cases h
  | some j =>
    rw [hr] at h
    obtain ⟨hlt, hj⟩ := List.getElem?_eq_some.mp hr
    rw [List.getElem_range] at hj
    obtain rfl := hj
    simp only [Option.map_some'] at h
    exact (Option.some.inj h).symm

theorem arangeQ_length (lo stop step : ℚ) (K : ℤ) (hK : 0 ≤ K) (hstep : 0 < step)
    (hstop : stop = lo + ((K : ℚ) + 1) * step) :
    (arangeQ lo stop step).length = K.toNat + 1 := by
  rw [arangeQ_eq lo stop step K hK hstep hstop]
  simp

theorem arangeQ_pairwise (lo stop step : ℚ) (hstep : 0 < step) :
    List.Pairwise (· < ·) (arangeQ lo stop step) := by
  unfold arangeQ
  refine List.pairwise_iff_getElem.mpr ?_
  intro i j hi hj hij
  simp only [List.getElem_map, List.getElem_range]
  have hq : (i : ℚ) < (j : ℚ) := by exact_mod_cast hij
  nlinarith

theorem foldl_pyMin2_none (r : List (Option ℚ)) : r.foldl pyMin2 none = none := by
  induction r with
  | nil => rfl
  | cons a t ih => cases a <;> exact ih

theorem foldl_pyMax2_none (r : List (Option ℚ)) : r.foldl pyMax2 none = none := by
  induction r with
  | nil => rfl
  | cons a t ih => cases a <;> exact ih

theorem foldl_pyMin2_some_le (r : List (Option ℚ)) :
    ∀ c v : ℚ, r.foldl pyMin2 (some c) = some v → v ≤ c := by
  induction r with
  | nil =>
    intro c v h
    exact le_of_eq (Option.some.inj h).symm
  | cons a t ih =>
    intro c v h
    cases a with
    | none => exact ih c v h
    | some w =>
      by_cases hw : w < c
      · have hstep : pyMin2 (some c) (some w) = some w := by
          show (if w < c then some w else (some c : Option ℚ)) = some w
          rw [if_pos hw]
        rw [List.foldl_cons, hstep] at h
        exact le_trans (ih w v h) (le_of_lt hw)
      · have hstep : pyMin2 (some c) (some w) = some c := by
          show (if w < c then some w else (some c : Option ℚ)) = some c
          rw [if_neg hw]
        rw [List.foldl_cons, hstep] at h
        exact ih c v h

theorem foldl_pyMax2_some_le (r : List (Option ℚ)) :
    ∀ c v : ℚ, r.foldl pyMax2 (some c) = some v → c ≤ v := by
  induction r with
  | nil =>
    intro c v h
    exact le_of_eq (Option.some.inj h)
  | cons a t ih =>
    intro c v h
    cases a with
    | none => exact ih c v h
    | some w =>
      by_cases hw : c < w
      · have hstep : pyMax2 (some c) (some w) = some w := by
          show (if c < w then some w else (some c : Option ℚ)) = some w
          rw [if_pos hw]
        rw [List.foldl_cons, hstep] at h
        exact le_trans (le_of_lt hw) (ih w v h)
      · have hstep : pyMax2 (some c) (some w) = some c := by
          show (if c < w then some w else (some c : Option ℚ)) = some c
          rw [if_neg hw]
        rw [List.foldl_cons, hstep] at h
        exact ih c v h

theorem pyMinList_head (l : List (Option ℚ)) (v : ℚ) (h : pyMinList l = some v) :
    ∃ c r, l = some c :: r ∧ v ≤ c := by
  cases l with
  | nil => exact Option.noConfusion h
  | cons a r =>
    cases a with
    | none =>
      have h' : r.foldl pyMin2 none = some v := h
      rw [foldl_pyMin2_none] at h'
      exact Option.noConfusion h'
    | some c => exact ⟨c, r, rfl, foldl_pyMin2_some_le r c v h⟩

theorem pyMaxList_head (l : List (Option ℚ)) (v : ℚ) (h : pyMaxList l = some v) :
    ∃ c r, l = some c :: r ∧ c ≤ v := by
  cases l with
  | nil => exact Option.noConfusion h
  | cons a r =>
    cases a with
    | none =>
      have h' : r.foldl pyMax2 none = some v := h
      rw [foldl_pyMax2_none] at h'
      exact Option.noConfusion h'
    | some c => exact ⟨c, r, rfl, foldl_pyMax2_some_le r c v h⟩

/-- C7 (amended): when the first table carrying a depth column and a row has
at least one present depth value — so the source's Python `min`/`max` folds
over the per-table pandas extrema return non-NaN global bounds `gmin`/`gmax`
— `build_master_depth` returns a nonempty strictly increasing grid of
constant step whose first value is at most `gmin` rounded down to a step
multiple and whose last value is at least `gmax` rounded up to a step
multiple; when no table has a depth column and a row it fails with the
structured `No valid depth data found in files` error; and when some table
does but the first such table's depth column is entirely missing, the
first-position NaN survives the folds, poisons the rounded bounds, and
`np.arange` raises — the call fails with the arange error, not with a grid
and not with the structured message. -/
theorem build_master_depth_grid :
    (∀ (files_dfs : List DataFrame) (step_ft : ℚ), 0 < step_ft →
      ∀ gmin gmax : ℚ,
      pyMinList ((files_dfs.filter fun df =>
          decide ("DEPTH" ∈ df.header) && !df.rows.isEmpty).map fun df =>
            listMin? (depthVals df)) = some gmin →
      pyMaxList ((files_dfs.filter fun df =>
          decide ("DEPTH" ∈ df.header) && !df.rows.isEmpty).map fun df =>
            listMax? (depthVals df)) = some gmax →
      ∃ g : List ℚ, build_master_depth files_dfs step_ft = .ok g ∧ g ≠ [] ∧
        List.Pairwise (· < ·) g ∧
        (∀ (i : ℕ) (a b : ℚ), g[i]? = some a → g[i + 1]? = some b →
          b - a = step_ft) ∧
        (∀ h0 : ℚ, g.head? = some h0 → h0 ≤ (⌊gmin / step_ft⌋ : ℚ) * step_ft) ∧
        (∀ hl : ℚ, g.getLast? = some hl →
          (⌈gmax / step_ft⌉ : ℚ) * step_ft ≤ hl)) ∧
    (∀ (files_dfs : List DataFrame) (step_ft : ℚ),
      (¬∃ df ∈ files_dfs, "DEPTH" ∈ df.header ∧ df.rows ≠ []) →
      build_master_depth files_dfs step_ft =
        .error "No valid depth data found in files") ∧
    (∀ (files_dfs : List DataFrame) (step_ft : ℚ) (df0 : DataFrame)
        (ct : List DataFrame),
      (files_dfs.filter fun df =>
        decide ("DEPTH" ∈ df.header) && !df.rows.isEmpty) = df0 :: ct →
      depthVals df0 = [] →
      build_master_depth files_dfs step_ft = .error "cannot compute length") := by
  refine ⟨?_, ?_, ?_⟩
  · intro dfs step hstep gmin gmax hmin hmax
    have hcmp : gmin ≤ gmax := by
      obtain ⟨c, r, hcr, hvc⟩ := pyMinList_head _ _ hmin
      obtain ⟨C, R, hCR, hCv⟩ := pyMaxList_head _ _ hmax
      rcases hf : (dfs.filter fun df =>
          decide ("DEPTH" ∈ df.header) && !df.rows.isEmpty) with - | ⟨df0, ft⟩
      · rw [hf] at hcr
        simp at hcr
      · rw [hf, List.map_cons] at hcr hCR
        injection hcr with h1 _
        injection hCR with h2 _
        have hcC : c ≤ C := listMin?_le_listMax? (depthVals df0) c C h1 h2
        linarith
    have hfl : (⌊gmin / step⌋ : ℚ) ≤ (⌈gmax / step⌉ : ℚ) := by
      have h1 : (⌊gmin / step⌋ : ℚ) ≤ gmin / step := Int.floor_le _
      have h2 : gmin / step ≤ gmax / step := by gcongr
      have h3 : gmax / step ≤ (⌈gmax / step⌉ : ℚ) := Int.le_ceil _
      linarith
    have hKle : ⌊gmin / step⌋ ≤ ⌈gmax / step⌉ := by exact_mod_cast hfl
    have hK : (0 : ℤ) ≤ ⌈gmax / step⌉ - ⌊gmin / step⌋ := by omega
    have hstop : (⌈gmax / step⌉ : ℚ) * step + step =
        (⌊gmin / step⌋ : ℚ) * step +
          (((⌈gmax / step⌉ - ⌊gmin / step⌋ : ℤ) : ℚ) + 1) * step := by
      push_cast
      ring
    refine ⟨arangeQ ((⌊gmin / step⌋ : ℚ) * step)
      ((⌈gmax / step⌉ : ℚ) * step + step) step, ?_, ?_, ?_, ?_, ?_, ?_⟩
    · have hne : ((dfs.filter fun df =>
          decide ("DEPTH" ∈ df.header) && !df.rows.isEmpty).map fun df =>
            listMin? (depthVals df)).isEmpty ≠ true := by
        intro he
        rw [List.isEmpty_iff] at he
        rw [he] at hmin
        exact Option.noConfusion hmin
      unfold build_master_depth
      dsimp only
      rw [if_neg hne, hmin, hmax]
    · have hlen := arangeQ_length _ _ _ _ hK hstep hstop
      exact List.length_pos.mp (by rw [hlen]; omega)
    · exact arangeQ_pairwise _ _ _ hstep
    · intro i a b ha hb
      rw [arangeQ_value _ _ _ _ _ ha, arangeQ_value _ _ _ _ _ hb]
      push_cast
      ring
    · intro h0 hh0
      rw [List.head?_eq_getElem?] at hh0
      rw [arangeQ_value _ _ _ _ _ hh0]
      norm_num
    · intro hl hhl
      rw [List.getLast?_eq_getElem?,
        arangeQ_length _ _ _ _ hK hstep hstop] at hhl
      simp only [Nat.add_sub_cancel] at hhl
      rw [arangeQ_value _ _ _ _ _ hhl]
      have hcast : (((⌈gmax / step⌉ - ⌊gmin / step⌋ : ℤ).toNat : ℕ) : ℚ) =
          (⌈gmax / step⌉ : ℚ) - (⌊gmin / step⌋ : ℚ) := by
        rw [← Int.cast_natCast, Int.toNat_of_nonneg hK]
        push_cast
        ring
      rw [hcast]
      have hid : (⌊gmin / step⌋ : ℚ) * step +
          ((⌈gmax / step⌉ : ℚ) - (⌊gmin / step⌋ : ℚ)) * step =
          (⌈gmax / step⌉ : ℚ) * step := by ring
      rw [hid]
  · intro dfs step hno
    have hf : (dfs.filter fun df =>
        decide ("DEPTH" ∈ df.header) && !df.rows.isEmpty) = [] := by
      rw [List.filter_eq_nil]
      intro df hdf hcond
      rw [Bool.and_eq_true] at hcond
      refine hno ⟨df, hdf, of_decide_eq_true hcond.1, ?_⟩
      intro hr
      rw [hr] at hcond
      simp at hcond
    unfold build_master_depth
    dsimp only
    rw [hf]
    rfl
  · intro dfs step df0 ct hf hdv
    have hm : pyMinList ((df0 :: ct).map fun df => listMin? (depthVals df)) =
        none := by
      rw [List.map_cons, hdv]
      exact foldl_pyMin2_none _
    have hM : pyMaxList ((df0 :: ct).map fun df => listMax? (depthVals df)) =
        none := by
      rw [List.map_cons, hdv]
      exact foldl_pyMax2_none _
    unfold build_master_depth
    dsimp only
    rw [hf, if_neg (by simp), hm, hM]

/-- C7 counterexample (refuting the original claim): a one-row table whose
single depth entry is missing is a genuine output of normalization (one row
is never deduplicated) and it has a row, so the original claim promises a
grid for the pair of it and a valid table; but the source appends pandas'
NaN depth minimum for it, Python's `min` keeps a NaN that sits first, and
`np.arange` then raises instead of returning a grid — while the same two
tables in the opposite order do yield a grid, because a non-first NaN loses
every comparison.  The one-table all-missing case likewise raises the arange
error rather than the structured message the claim's failure half names. -/
theorem build_master_depth_nan_first_table :
    normalize_las_dataframe ⟨["DEPTH"], [[none]]⟩ (mergeNullList (-999.25)) "FT" =
      .ok ⟨["DEPTH"], [[none]]⟩ ∧
    build_master_depth [⟨["DEPTH"], [[none]]⟩, ⟨["DEPTH"], [[some 100]]⟩] (1 / 2) =
      .error "cannot compute length" ∧
    build_master_depth [⟨["DEPTH"], [[some 100]]⟩, ⟨["DEPTH"], [[none]]⟩] (1 / 2) =
      .ok [100] := by
  refine ⟨?_, ?_, ?_⟩ <;> decide

/-- Witness for C7 at concrete inputs: a single two-row table with depths
100.3 and 102.2 at step 0.5 yields the inclusive grid from 100 (the
floor-rounded minimum) to 102.5 (the ceil-rounded maximum); a table without
rows yields the structured error; a single one-row table whose depth entry
is missing lands in the NaN branch and yields the arange error. -/
theorem build_master_depth_grid_witness :
    build_master_depth [⟨["DEPTH"], [[some 100.3], [some 102.2]]⟩] (1 / 2) =
      .ok [100, 100.5, 101, 101.5, 102, 102.5] ∧
    build_master_depth [⟨["DEPTH"], []⟩] (1 / 2) =
      .error "No valid depth data found in files" ∧
    build_master_depth [⟨["DEPTH"], [[none]]⟩] (1 / 2) =
      .error "cannot compute length" := by
  obtain ⟨g, hg, -, -, -, -, -⟩ := build_master_depth_grid.1
    [⟨["DEPTH"], [[some 100.3], [some 102.2]]⟩] (1 / 2) (by norm_num)
    100.3 102.2 (by decide) (by decide)
  refine ⟨by decide, ?_, ?_⟩
  · exact build_master_depth_grid.2.1 [⟨["DEPTH"], []⟩] (1 / 2) (by decide)
  · exact build_master_depth_grid.2.2 [⟨["DEPTH"], [[none]]⟩] (1 / 2)
      ⟨["DEPTH"], [[none]]⟩ [] (by decide) (by decide)

theorem nnAt_cases (xy : List (ℚ × ℚ)) (max_dist xi : ℚ) (hne : xy ≠ []) :
    (listMinD (xy.map fun p => |p.1 - xi|) 0 ≤ max_dist →
      ∃ j : ℕ, ∃ p : ℚ × ℚ, xy[j]? = some p ∧
        |p.1 - xi| = listMinD (xy.map fun p => |p.1 - xi|) 0 ∧
        nnAt xy max_dist xi = some p.2) ∧
    (max_dist < listMinD (xy.map fun p => |p.1 - xi|) 0 →
      nnAt xy max_dist xi = none) := by
  obtain ⟨q, qs, rfl⟩ := List.exists_cons_of_ne_nil hne
  have hds : ((q :: qs).map fun p => |p.1 - xi|) =
      |q.1 - xi| :: qs.map fun p => |p.1 - xi| := by simp
  have hj := argminIdx_spec (|q.1 - xi|) (qs.map fun p => |p.1 - xi|)
  rw [← hds] at hj
  set ds := (q :: qs).map fun p => |p.1 - xi| with hdsdef
  set j := argminIdx ds with hjdef
  have hjlen : j < ds.length := by
    by_contra hcon
    rw [List.getElem?_eq_none (not_lt.mp hcon)] at hj
    cases hj
  have hjxy : j < (q :: qs).length := by simpa [hdsdef] using hjlen
  have hgetD : ds.getD j 0 = listMinD ds 0 := by
    rw [List.getD_eq_getElem?_getD, hj]
    rfl
  have hne2 : ¬((q :: qs).isEmpty = true) := by simp
  constructor
  · intro hle
    refine ⟨j, (q :: qs).getD j (0, 0), ?_, ?_, ?_⟩
    · rw [List.getD_eq_getElem?_getD, List.getElem?_eq_getElem hjxy]
      rfl
    · have hx : ds[j]? = some |((q :: qs).getD j (0, 0)).1 - xi| := by
        rw [List.getD_eq_getElem?_getD, List.getElem?_eq_getElem hjxy, hdsdef,
          List.getElem?_map, List.getElem?_eq_getElem hjxy]
        rfl
      rw [hx] at hj
      exact Option.some.inj hj
    · unfold nnAt
      rw [if_neg hne2]
      dsimp only
      rw [← hdsdef, ← hjdef, hgetD, if_pos hle]
  · intro hlt
    unfold nnAt
    rw [if_neg hne2]
    dsimp only
    rw [← hdsdef, ← hjdef, hgetD, if_neg (not_le.mpr hlt)]

theorem nnAt_mem (xy : List (ℚ × ℚ)) (max_dist xi v : ℚ)
    (h : nnAt xy max_dist xi = some v) : v ∈ xy.map Prod.snd := by
  rcases List.eq_nil_or_concat xy with rfl | -
  · exact absurd h (by simp [nnAt])
  · by_cases hne : xy = []
    · subst hne
      exact absurd h (by simp [nnAt])
    · obtain ⟨q, qs, hq⟩ := List.exists_cons_of_ne_nil hne
      subst hq
      have hne2 : ¬((q :: qs).isEmpty = true) := by simp
      unfold nnAt at h
      rw [if_neg hne2] at h
      dsimp only at h
      by_cases hcond : (((q :: qs).map fun p => |p.1 - xi|).getD
          (argminIdx ((q :: qs).map fun p => |p.1 - xi|)) 0) ≤ max_dist
      · rw [if_pos hcond] at h
        obtain hv := Option.some.inj h
        set j := argminIdx ((q :: qs).map fun p => |p.1 - xi|) with hjdef
        have hj := argminIdx_spec (|q.1 - xi|) (qs.map fun p => |p.1 - xi|)
        have hds : ((q :: qs).map fun p => |p.1 - xi|) =
            |q.1 - xi| :: qs.map fun p => |p.1 - xi| := by simp
        rw [← hds, ← hjdef] at hj
        have hjlen : j < ((q :: qs).map fun p => |p.1 - xi|).length := by
          by_contra hcon
          rw [List.getElem?_eq_none (not_lt.mp hcon)] at hj
          cases hj
        have hjxy : j < (q :: qs).length := by simpa using hjlen
        have : (q :: qs).getD j (0, 0) ∈ q :: qs := by
          rw [List.getD_eq_getElem?_getD, List.getElem?_eq_getElem hjxy]
          exact List.getElem_mem hjxy
        rw [← hv]
        exact List.mem_map_of_mem Prod.snd this
      · rw [if_neg hcond] at h
        cases h

/-- C4: a curve whose name contains one of the discrete tokens as a
case-insensitive substring (for example the literal name LITH_CODE) is
classified discrete, and its projection onto the master grid is
nearest-neighbor: each grid point receives the value of the (first) closest
raw sample when that sample's distance is at most `max(1.0, 2 * step)` and is
missing otherwise; every non-missing projected value equals some original raw
sample value of the curve. -/
theorem discrete_projection_nearest_neighbor :
    (∀ name : String, is_discrete_curve name = true ↔
      ∃ tok ∈ DISCRETE_CURVE_TOKENS, tok.toList <:+: (strUpper name).toList) ∧
    (∀ (df : DataFrame) (master : List ℚ) (gap_limit step : ℚ) (c : String),
      "DEPTH" ∈ df.header → c ∈ df.header → c ≠ "DEPTH" →
      getCol (project_to_master_grid df master gap_limit step) c =
        some (projectCol df master gap_limit step c)) ∧
    (∀ (df : DataFrame) (master : List ℚ) (gap_limit step : ℚ) (c : String),
      is_discrete_curve c = true → validPairs df c ≠ [] →
      projectCol df master gap_limit step c =
        nearest_neighbor_interp master (validPairs df c) (max 1 (2 * step))) ∧
    (∀ (master : List ℚ) (xy : List (ℚ × ℚ)) (max_dist : ℚ),
      nearest_neighbor_interp master xy max_dist = master.map (nnAt xy max_dist)) ∧
    (∀ (xy : List (ℚ × ℚ)) (max_dist xi : ℚ), xy ≠ [] →
      (∀ d ∈ xy.map fun p => |p.1 - xi|,
        listMinD (xy.map fun p => |p.1 - xi|) 0 ≤ d) ∧
      (listMinD (xy.map fun p => |p.1 - xi|) 0 ≤ max_dist →
        ∃ j : ℕ, ∃ p : ℚ × ℚ, xy[j]? = some p ∧
          |p.1 - xi| = listMinD (xy.map fun p => |p.1 - xi|) 0 ∧
          nnAt xy max_dist xi = some p.2) ∧
      (max_dist < listMinD (xy.map fun p => |p.1 - xi|) 0 →
        nnAt xy max_dist xi = none)) ∧
    (∀ (xy : List (ℚ × ℚ)) (max_dist xi v : ℚ),
      nnAt xy max_dist xi = some v → v ∈ xy.map Prod.snd) := by
  refine ⟨?_, getCol_project, ?_, fun _ _ _ => rfl, ?_, nnAt_mem⟩
  · intro name
    unfold is_discrete_curve
    rw [List.any_eq_true]
    constructor
    · rintro ⟨tok, htok, hdec⟩
      exact ⟨tok, htok, of_decide_eq_true hdec⟩
    · rintro ⟨tok, htok, hinf⟩
      exact ⟨tok, htok, decide_eq_true hinf⟩
  · intro df master gap_limit step c hd hp
    unfold projectCol
    dsimp only
    rw [if_neg (by simpa using hp), if_pos hd]
  · intro xy max_dist xi hne
    exact ⟨fun d hd => listMinD_le_mem _ 0 d hd,
      (nnAt_cases xy max_dist xi hne).1, (nnAt_cases xy max_dist xi hne).2⟩

/-- C2: `select_best_source` returns the candidates that carry the curve
sorted by coverage descending then QC score descending (pairwise, via the
lexicographic key order), with equal-key candidates kept in original input
order (the filter on any fixed key is unchanged by the sort — the standard
stability characterization); a candidate with strictly higher coverage is
ranked ahead of one with higher QC score but lower coverage (any later entry
has coverage at most an earlier entry's, and at equal coverage at most its QC
score); and the arbiter takes the head of the ranking as the primary, whose
projected values appear verbatim in the merged curve wherever they are
present (gap filling only ever touches missing positions). -/
theorem select_best_source_ranking :
    (∀ (curve : String) (projected : List (String × DataFrame))
        (qc : List (String × List (String × ℚ))),
      List.Pairwise rankGe (select_best_source curve projected qc)) ∧
    (∀ (curve : String) (projected : List (String × DataFrame))
        (qc : List (String × List (String × ℚ))) (cv q : ℚ),
      ((select_best_source curve projected qc).filter fun x =>
          decide (rankKey x = (cv, q))) =
        (rankCandidates curve projected qc).filter fun x =>
          decide (rankKey x = (cv, q))) ∧
    (∀ (curve : String) (projected : List (String × DataFrame))
        (qc : List (String × List (String × ℚ))) (i j : ℕ)
        (a b : String × ℚ × ℚ), i < j →
      (select_best_source curve projected qc)[i]? = some a →
      (select_best_source curve projected qc)[j]? = some b →
      b.2.1 ≤ a.2.1 ∧ (b.2.1 = a.2.1 → b.2.2 ≤ a.2.2)) ∧
    (∀ (curve : String) (projected : List (String × DataFrame))
        (qc : List (String × List (String × ℚ)))
        (prim : String × ℚ × ℚ) (rest : List (String × ℚ × ℚ))
        (res : List (Option ℚ) × CurveInfo) (fd : String × DataFrame),
      select_best_source curve projected qc = prim :: rest →
      mergeOneCurve projected qc curve = some res →
      projected.find? (fun x => decide (x.1 = prim.1)) = some fd →
      res.2.source_file = prim.1 ∧ res.2.qc_score = prim.2.2 ∧
      ((∀ fd' ∈ projected, (getColD fd.2 curve).length ≤ fd'.2.rows.length) →
        ∀ (i : ℕ) (v : ℚ), (getColD fd.2 curve)[i]? = some (some v) →
          res.1[i]? = some (some v))) := by
  refine ⟨?_, ?_, ?_, ?_⟩
  · intro curve projected qc
    exact List.sorted_insertionSort rankGe (rankCandidates curve projected qc)
  · intro curve projected qc cv q
    exact filter_insertionSort_key rankKey rankGe rankGe_of_key_eq (cv, q)
      (rankCandidates curve projected qc)
  · intro curve projected qc i j a b hij ha hb
    have hr := pairwise_getElem?_rel
      (List.sorted_insertionSort rankGe (rankCandidates curve projected qc))
      i j a b hij ha hb
    rcases hr with hlt | ⟨heq, hle⟩
    · exact ⟨le_of_lt hlt, fun he => absurd (he ▸ hlt) (lt_irrefl _)⟩
    · exact ⟨le_of_eq heq, fun _ => hle⟩
  · intro curve projected qc prim rest res fd hsel hmerge hfd
    unfold mergeOneCurve at hmerge
    rw [hsel] at hmerge
    dsimp only at hmerge
    rw [hfd] at hmerge
    dsimp only at hmerge
    obtain rfl := (Option.some.inj hmerge).symm
    refine ⟨rfl, rfl, ?_⟩
    intro hlen i v hv
    exact (fillLoop_frame projected curve rest (getColD fd.2 curve) hlen).2 i v hv

/-- Witness for C2 at a concrete input: with A at coverage 1 / QC 80 and B at
coverage 1/2 / QC 95, A is ranked first — higher coverage beats higher QC
score — and by the theorem the later entry's coverage is bounded by the
earlier one's. -/
theorem select_best_source_ranking_witness :
    select_best_source "GR" demoProj demoQc = [("A", 1, 80), ("B", 1 / 2, 95)] ∧
    (1 : ℚ) / 2 ≤ 1 := by
  have h := select_best_source_ranking.2.2.1 "GR" demoProj demoQc 0 1
    ("A", 1, 80) ("B", 1 / 2, 95) (by omega) (by decide) (by decide)
  exact ⟨by decide, h.1⟩

/-- C5: `fill_gaps_from_secondary` leaves every position where the primary has
a value unchanged, writes the secondary's value into every position where the
primary is missing, and returns the count of positions that became
non-missing.  At the merge level the gap-filling loop never overwrites a
present value of the primary merged curve even when a secondary disagrees
there, its recorded total equals the number of positions that became
non-missing, its recorded first contributor is the first ranked secondary
whose own fill step filled at least one position (none exactly when the
total is zero), and the per-curve provenance entry records exactly that
first contributor and that total. -/
theorem fill_gaps_frame_and_provenance :
    (∀ (p s : List (Option ℚ)), p.length = s.length →
      (∀ (i : ℕ) (v : ℚ), p[i]? = some (some v) →
        (fill_gaps_from_secondary p s).1[i]? = some (some v)) ∧
      (∀ i : ℕ, p[i]? = some none →
        (fill_gaps_from_secondary p s).1[i]? = s[i]?) ∧
      (fill_gaps_from_secondary p s).2 =
        (p.zip s).countP fun pr => pr.1.isNone && pr.2.isSome) ∧
    (∀ (projected : List (String × DataFrame)) (curve : String)
        (rks : List (String × ℚ × ℚ)) (col : List (Option ℚ)),
      (∀ fd ∈ projected, col.length ≤ fd.2.rows.length) →
      (∀ (i : ℕ) (v : ℚ), col[i]? = some (some v) →
        (fillLoop projected curve rks col).1[i]? = some (some v)) ∧
      (fillLoop projected curve rks col).2.1 =
        ((fillLoop projected curve rks col).1.countP fun v => v.isSome) -
          (col.countP fun v => v.isSome)) ∧
    (∀ (projected : List (String × DataFrame)) (curve : String)
        (rks : List (String × ℚ × ℚ)) (col : List (Option ℚ)),
      ((fillLoop projected curve rks col).2.2 = [] ↔
        (fillLoop projected curve rks col).2.1 = 0) ∧
      (∀ f : String, ((fillLoop projected curve rks col).2.2).head? = some f →
        ∃ (pre : List (String × ℚ × ℚ)) (e : String × ℚ × ℚ)
          (post : List (String × ℚ × ℚ)),
          rks = pre ++ e :: post ∧ e.1 = f ∧
          (fillLoop projected curve pre col).2.1 = 0 ∧
          0 < (fillLoop projected curve (pre ++ [e]) col).2.1)) ∧
    (∀ (projected : List (String × DataFrame))
        (qc : List (String × List (String × ℚ))) (curve : String)
        (prim : String × ℚ × ℚ) (rest : List (String × ℚ × ℚ))
        (res : List (Option ℚ) × CurveInfo) (fd : String × DataFrame),
      select_best_source curve projected qc = prim :: rest →
      mergeOneCurve projected qc curve = some res →
      projected.find? (fun x => decide (x.1 = prim.1)) = some fd →
      res.1 = (fillLoop projected curve rest (getColD fd.2 curve)).1 ∧
      res.2.gaps_count = (fillLoop projected curve rest (getColD fd.2 curve)).2.1 ∧
      res.2.gaps_filled_from =
        ((fillLoop projected curve rest (getColD fd.2 curve)).2.2).head?) := by
  refine ⟨?_, ?_, ?_, ?_⟩
  · intro p s hlen
    refine ⟨fun i v h => fill_gaps_preserves p s i v (le_of_eq hlen) h, ?_,
      (fill_gaps_count p s (le_of_eq hlen)).1⟩
    intro i hi
    rw [fill_gaps_getElem?, hi]
    cases hs : s[i]? with
    | none => rfl
    | some sv => rfl
  · intro projected curve rks col hlen
    exact ⟨(fillLoop_frame projected curve rks col hlen).2,
      (fillLoop_count projected curve rks col hlen).2⟩
  · intro projected curve rks col
    exact fillLoop_first_contributor projected curve rks col
  · intro projected qc curve prim rest res fd hsel hmerge hfd
    unfold mergeOneCurve at hmerge
    rw [hsel] at hmerge
    dsimp only at hmerge
    rw [hfd] at hmerge
    dsimp only at hmerge
    obtain rfl := (Option.some.inj hmerge).symm
    exact ⟨rfl, rfl, rfl⟩

/-- Witness for C5 at a concrete input: position 0 of the primary is present
and survives gap filling unchanged although the secondary disagrees there;
position 1 is filled from the secondary; position 2 stays missing; the fill
count is 1. -/
theorem fill_gaps_frame_and_provenance_witness :
    fill_gaps_from_secondary [some 1, none, none] [some 9, some 5, none] =
      ([some 1, some 5, none], 1) ∧
    (fill_gaps_from_secondary [some 1, none, none] [some 9, some 5, none]).1[0]? =
      some (some 1) := by
  have h := (fill_gaps_frame_and_provenance.1 [some 1, none, none]
    [some 9, some 5, none] (by decide)).1 0 1 (by decide)
  exact ⟨by decide, h⟩


/-- Witness for C4 at a concrete input: the literal name LITH_CODE is
discrete (via the CODE token), and a one-sample curve projected with
`max(1.0, 2 * 0.5) = 1` assigns the raw value 7 to the grid point 100.5 at
distance 0.5 and leaves the grid point 103 at distance 3 missing. -/
theorem discrete_projection_nearest_neighbor_witness :
    is_discrete_curve "LITH_CODE" = true ∧
    nearest_neighbor_interp [100.5, 103] [(100, 7)] (max 1 (2 * (1 / 2))) =
      [some 7, none] := by
  obtain ⟨h1, -, -, -, -, -⟩ := discrete_projection_nearest_neighbor
  exact ⟨h1 "LITH_CODE" |>.mpr ⟨"CODE", by decide, by decide⟩, by decide⟩

/-- Witness for C6 at a concrete input: a series whose only entry is missing
has zero valid points and scores exactly 0. -/
theorem curve_qc_score_bounds_witness :
    ([none, none] : List (Option ℚ)).filterMap id = [] ∧
      curve_qc_score [none, none] (some "GR") = 0 :=
  ⟨by decide, (curve_qc_score_bounds [none, none] (some "GR")).2 (by decide)⟩

/-- C9: when exactly one source table is supplied, the merge bypasses
grid-building and projection entirely (the reported grid is the 0/0/0
placeholder and no curve entry exists), the returned merged table is that
source's table unchanged, and the report's warnings state that no merge was
necessary. -/
theorem merge_single_source (las : LASObj) (ids : Option (List String)) (step_ft : ℚ)
    (gap_limit_ft : Option ℚ) (setOrder : List String → List String) :
    merge_las_files [las] ids step_ft gap_limit_ft setOrder = .ok
      { merged_df := las.data,
        merge_report :=
          { curves := [],
            master_depth := ⟨0, 0, step_ft, 0⟩,
            files_processed := [match ids with
              | some (x :: _) => x
              | _ => las.well_name],
            warnings := ["Single file provided, no merge needed"],
            well_name := las.well_name } } := rfl

/-- C1 (refuted on the code): the source draws `well_name` from
`list(well_names)[0]` where `well_names` is a Python `set`, and iterates the
`all_curves` set to order the merged columns.  With the set-iteration order
made explicit, two admissible orders of the same two-element set (the
identity and the reversal, both permutations) yield different reports on
identical inputs: the well name is WELL_A under one order and WELL_B under
the other, although WELL_A is the first distinct name in input order.  So
the output does depend on the iteration order of an unordered container. -/
theorem merge_well_name_depends_on_set_order :
    (∀ l : List String, (List.reverse l).Perm l) ∧
    insertionDedup ([demoWellA, demoWellB].map fun o => o.well_name) =
      ["WELL_A", "WELL_B"] ∧
    reportWellName (merge_las_files [demoWellA, demoWellB] none (1/2) (some 1) id) =
      some "WELL_A" ∧
    reportWellName
        (merge_las_files [demoWellA, demoWellB] none (1/2) (some 1) List.reverse) =
      some "WELL_B" := by
  refine ⟨fun l => l.reverse_perm, ?_, ?_, ?_⟩ <;> decide

/-- C10: the null list the merge hands to normalization always contains the
built-in sentinel list, whatever sentinel a source declares; masking turns a
value into missing exactly when it lies within absolute tolerance 0.01
(strict, as in the source's `< 0.01` mask) of some configured sentinel; in
particular -999.0 and 999.25 are always turned into missing.  Masking applies
to every non-depth column entry, and normalization applies exactly this mask
to the rows (composition shown on inputs whose depths are already sorted,
unique and nonmetric, where the later stages are the identity). -/
theorem normalization_built_in_sentinels :
    (∀ nv : ℚ, COMMON_NULL_VALUES ⊆ mergeNullList nv) ∧
    (∀ nv : ℚ, nv ≠ 0 → mergeNullList nv = nv :: COMMON_NULL_VALUES) ∧
    (∀ (nulls : List ℚ) (v : ℚ),
      maskValue nulls (some v) = none ↔ ∃ s ∈ nulls, |v - s| < 1 / 100) ∧
    (∀ nv v : ℚ, v = -999 ∨ v = 999.25 → maskValue (mergeNullList nv) (some v) = none) ∧
    (∀ (header : List String) (nulls : List ℚ) (rows : List (List (Option ℚ)))
        (i j : ℕ) (r : List (Option ℚ)) (name : String),
      rows[i]? = some r → header[j]? = some name → name ≠ "DEPTH" → j < r.length →
      ((replace_nulls header nulls rows)[i]?).bind (fun rr => rr[j]?) =
        some (maskValue nulls (r.getD j none))) ∧
    (∀ (df : DataFrame) (nulls : List ℚ) (depth_unit : String),
      renameDepth df.header = df.header → "DEPTH" ∈ df.header →
      strUpper depth_unit ∉ METER_UNITS →
      List.Sorted
        (fun r s : List (Option ℚ) =>
          depthLeB (r.getD (df.header.indexOf "DEPTH") none)
            (s.getD (df.header.indexOf "DEPTH") none) = true)
        (replace_nulls df.header nulls df.rows) →
      ((replace_nulls df.header nulls df.rows).map
          (fun r => r.getD (df.header.indexOf "DEPTH") none)).Nodup →
      normalize_las_dataframe df nulls depth_unit =
        .ok ⟨df.header, replace_nulls df.header nulls df.rows⟩) := by
  refine ⟨common_subset_mergeNullList, ?_, maskValue_some_eq_none_iff, ?_, ?_, ?_⟩
  · intro nv h
    unfold mergeNullList
    rw [if_neg h]
  · intro nv v hv
    rw [maskValue_some_eq_none_iff]
    rcases hv with rfl | rfl
    · exact ⟨-999, common_subset_mergeNullList nv (by decide), by norm_num⟩
    · exact ⟨999.25, common_subset_mergeNullList nv (by decide), by norm_num⟩
  · intro header nulls rows i j r name hi hj hname hjr
    unfold replace_nulls
    rw [List.getElem?_map, hi]
    have hv : r[j]? = some (r.getD j none) := by
      rw [List.getD_eq_getElem?_getD, List.getElem?_eq_getElem hjr]
      rfl
    simp only [Option.map_some', Option.some_bind, List.getElem?_map,
      getElem?_zip_pair, hj, hv]
    rw [if_neg hname]
  · intro df nulls depth_unit hren hdep hunit hsorted hnodup
    unfold normalize_las_dataframe
    rw [hren]
    rw [if_pos hdep]
    have hconv : convertDepth (df.header.indexOf "DEPTH") depth_unit
        (replace_nulls df.header nulls df.rows) =
        replace_nulls df.header nulls df.rows := by
      unfold convertDepth
      rw [if_neg hunit]
    dsimp only
    rw [hconv, List.Sorted.insertionSort_eq hsorted, if_pos hnodup]

/-- Witness for C10 at a concrete input: masking with a declared sentinel of
-500 still removes the built-in sentinels -999 and 999.25, and normalization
of a sorted two-row table applies exactly the mask. -/
theorem normalization_built_in_sentinels_witness :
    maskValue (mergeNullList (-500)) (some (-999)) = none ∧
    maskValue (mergeNullList (-500)) (some (999.25 : ℚ)) = none ∧
    normalize_las_dataframe ⟨["DEPTH", "GR"], [[some 100, some (-999)], [some 101, some 50]]⟩
        (mergeNullList (-500)) "FT" =
      .ok ⟨["DEPTH", "GR"], [[some 100, none], [some 101, some 50]]⟩ := by
  obtain ⟨-, -, -, h4, -, h6⟩ := normalization_built_in_sentinels
  refine ⟨h4 (-500) (-999) (Or.inl rfl), h4 (-500) 999.25 (Or.inr rfl), ?_⟩
  have h := h6 ⟨["DEPTH", "GR"], [[some 100, some (-999)], [some 101, some 50]]⟩
    (mergeNullList (-500)) "FT" (by decide) (by decide) (by decide)
    (by decide) (by decide)
  rw [h]
  decide

/-- C8 counterexample: two supplied sources both survive normalization (two
survivors, no normalization warnings), yet the whole call still fails with an
error and no partial result, because neither survivor carries usable depth
data for the master grid.  So the call does not fail *exactly* when zero
tables are supplied or none survive normalization: the grid-construction
failure is a third fatal case. -/
theorem merge_error_despite_normalized_sources :
    (normalizeAll [demoEmptyDepthObj, demoEmptyDepthObj] none).1.length = 2 ∧
    (normalizeAll [demoEmptyDepthObj, demoEmptyDepthObj] none).2.2 = [] ∧
    merge_las_files [demoEmptyDepthObj, demoEmptyDepthObj] none 1 none id =
      .error "No valid depth data found in files" := by
  refine ⟨?_, ?_, ?_⟩ <;> decide

/-- C8 (amended): with zero sources the call fails with the structured error
`No LAS files provided`.  With at least two sources, exactly one of three
outcomes occurs: the merge returns a result whose `files_processed` is the
identifier list of the sources that survived normalization and whose warnings
include every per-source normalization-failure warning (the recoverable
path: a failing source is dropped, a warning naming it is kept, the merge
proceeds); or no source survived normalization and the call fails with
`No files could be normalized`; or building the master depth grid from the
survivors fails and the call fails with that grid error — the case the
original claim omits. -/
theorem merge_error_taxonomy :
    (∀ (ids : Option (List String)) (step_ft : ℚ) (gap : Option ℚ)
        (so : List String → List String),
      merge_las_files [] ids step_ft gap so = .error "No LAS files provided") ∧
    (∀ (a b : LASObj) (rest : List LASObj) (ids : Option (List String))
        (step_ft : ℚ) (gap : Option ℚ) (so : List String → List String),
      (∃ r, merge_las_files (a :: b :: rest) ids step_ft gap so = .ok r ∧
        r.merge_report.files_processed = (normalizeAll (a :: b :: rest) ids).2.1 ∧
        ∀ w ∈ (normalizeAll (a :: b :: rest) ids).2.2,
          w ∈ r.merge_report.warnings) ∨
      ((normalizeAll (a :: b :: rest) ids).1 = [] ∧
        merge_las_files (a :: b :: rest) ids step_ft gap so =
          .error "No files could be normalized") ∨
      (∃ e, build_master_depth (normalizeAll (a :: b :: rest) ids).1 step_ft =
          .error e ∧
        merge_las_files (a :: b :: rest) ids step_ft gap so = .error e)) := by
  constructor
  · intro ids step gap so
    rfl
  · intro a b rest ids step gap so
    by_cases hne : (normalizeAll (a :: b :: rest) ids).1.isEmpty = true
    · refine Or.inr (Or.inl ⟨List.isEmpty_iff.mp hne, ?_⟩)
      unfold merge_las_files
      dsimp only
      rw [if_pos hne]
    · cases hbm : build_master_depth (normalizeAll (a :: b :: rest) ids).1 step with
      | error e =>
        refine Or.inr (Or.inr ⟨e, rfl, ?_⟩)
        unfold merge_las_files
        dsimp only
        rw [if_neg hne, hbm]
      | ok master =>
        refine Or.inl ?_
        unfold merge_las_files
        dsimp only
        rw [if_neg hne, hbm]
        exact ⟨_, rfl, rfl, fun w hw => List.mem_append_right _ hw⟩

/-- Witness for C8 at concrete inputs: the empty call errors, and a call with
one depth-less source (whose normalization fails) plus two well-formed
sources lands in the amended trichotomy; on this input the recoverable path
is taken: the merge succeeds, processes exactly the two survivors, and keeps
the warning naming the dropped source. -/
theorem merge_error_taxonomy_witness :
    (merge_las_files [] none 1 none id = .error "No LAS files provided") ∧
    ((∃ r, merge_las_files [demoNoDepthObj, demoGoodA, demoGoodB] none 1 none id =
          .ok r ∧
        r.merge_report.files_processed =
          (normalizeAll [demoNoDepthObj, demoGoodA, demoGoodB] none).2.1 ∧
        ∀ w ∈ (normalizeAll [demoNoDepthObj, demoGoodA, demoGoodB] none).2.2,
          w ∈ r.merge_report.warnings) ∨
      ((normalizeAll [demoNoDepthObj, demoGoodA, demoGoodB] none).1 = [] ∧
        merge_las_files [demoNoDepthObj, demoGoodA, demoGoodB] none 1 none id =
          .error "No files could be normalized") ∨
      (∃ e, build_master_depth
            (normalizeAll [demoNoDepthObj, demoGoodA, demoGoodB] none).1 1 =
          .error e ∧
        merge_las_files [demoNoDepthObj, demoGoodA, demoGoodB] none 1 none id =
          .error e)) ∧
    (normalizeAll [demoNoDepthObj, demoGoodA, demoGoodB] none).2.1 =
      ["File_2", "File_3"] ∧
    (normalizeAll [demoNoDepthObj, demoGoodA, demoGoodB] none).2.2 =
      ["Error normalizing File_1: No depth column found in DataFrame"] ∧
    (merge_las_files [demoNoDepthObj, demoGoodA, demoGoodB] none 1 none id).isOk =
      true :=
  ⟨merge_error_taxonomy.1 none 1 none id,
   merge_error_taxonomy.2 demoNoDepthObj demoGoodA [demoGoodB] none 1 none id,
   by decide, by decide, by decide⟩

end Petrophyter
